import Mathlib

/-!
memc_load: a verification development

A shallow embedding of `memc_load.go` (the bulk loader that parses
`appsinstalled` lines and publishes them to per-category memcache servers)
together with theorems about its parser, its retry loop, its worker/sender
pair, its file loop and its statistics verdict.

Conventions of the embedding:

* a Go `string` is a `List Char` (`Str`); only valid UTF-8 text is modelled;
* `uint64`/`uint32` values are natural numbers, every arithmetic step on them
  is followed by an explicit `% 2^64` / `% 2^32`;
* library calls whose code is not part of the program (`strconv.ParseFloat`,
  `proto.Marshal`, `memcache.Client.Set`, the file system) are parameters of
  the definitions that use them; `strings.TrimSpace`, `strings.Split` and
  `strconv.ParseUint` are modelled from their documented behaviour;
* `log.Fatal*` ends the process: the functions that can reach it return an
  outcome that records the abort;
* a non-negative `float64` is its mantissa and biased exponent, and the
  conversion from `uint64`, the division and the comparison are the exact
  IEEE 754 operations (round to nearest, ties to even);
* the goroutines of one category are a transition system whose moves are the
  ready cases of their `select` statements.
-/

namespace MemcLoad

/-- A Go string, as its sequence of characters. -/
abbrev Str := List Char

deriving instance DecidableEq for Except

/-! ## Library functions used by the parser -/

/-- White space in the sense of Go's `unicode.IsSpace`: the Latin-1 spaces
`\t \n \v \f \r`, space, U+0085, U+00A0, and the code points of category Z. -/
def isSpace (c : Char) : Bool :=
  let n := c.toNat
  (0x09 ≤ n && n ≤ 0x0D) || n == 0x20 || n == 0x85 || n == 0xA0 || n == 0x1680 ||
  (0x2000 ≤ n && n ≤ 0x200A) || n == 0x2028 || n == 0x2029 || n == 0x202F ||
  n == 0x205F || n == 0x3000

/-- Go's `strings.TrimSpace`: all leading and trailing white space removed. -/
def TrimSpace (s : Str) : Str :=
  ((s.dropWhile isSpace).reverse.dropWhile isSpace).reverse

/-- Go's `strings.Split(s, sep)` for a one-character separator: the pieces of
`s` between consecutive separators; a string without separator is its own
single piece, so the result is never empty. -/
def Split (sep : Char) : Str → List Str
  | [] => [[]]
  | c :: cs =>
    if c = sep then [] :: Split sep cs
    else match Split sep cs with
      | [] => [[c]]
      | f :: fs => (c :: f) :: fs

/-- Largest `uint64`. -/
def maxUint64 : Nat := 2 ^ 64 - 1

/-- Largest value `ParseUint` accepts for `bitSize = 32`. -/
def maxVal32 : Nat := 2 ^ 32 - 1

/-- A decimal digit, as `'0' <= c && c <= '9'`. -/
def isDigit (c : Char) : Bool := 48 ≤ c.toNat && c.toNat ≤ 57

/-- The digit loop of Go's `strconv.ParseUint(s, 10, 32)`: every byte must be
a decimal digit (letters are digits of a larger base, and the underscore is
only accepted for base 0, so both are syntax errors here); the accumulator
may neither reach the cutoff `maxUint64/10 + 1` before the multiplication nor
exceed `maxVal32` after the addition. `none` stands for a non-nil error. -/
def ParseUintLoop (n : Nat) : Str → Option Nat
  | [] => some n
  | c :: cs =>
    if isDigit c then
      let d := c.toNat - 48
      if n ≥ maxUint64 / 10 + 1 then none
      else
        let n10 := (n * 10) % 2 ^ 64
        let n1 := (n10 + d) % 2 ^ 64
        if n1 < n10 ∨ n1 > maxVal32 then none
        else ParseUintLoop n1 cs
    else none

/-- Go's `strconv.ParseUint(s, 10, 32)`: the empty string is a syntax error,
otherwise the digit loop decides. -/
def ParseUint32 (s : Str) : Option Nat :=
  if s = [] then none else ParseUintLoop 0 s

/-! ## The record and its parser -/

/-- The parsed record `AppsInstalled`; `F` is the type of `float64` values,
which the parser only stores. -/
structure AppsInstalled (F : Type) where
  DevType : Str
  DevId : Str
  Lat : F
  Lon : F
  Apps : List Nat
  deriving DecidableEq, Repr

/-- The errors `parseAppsInstalled` returns. `numError` is the error of
`strconv.ParseFloat`, with the field it was applied to. -/
inductive ParseError where
  | tooFewParts
  | missedDeviceType
  | missedDeviceId
  | numError (field : Str)
  deriving DecidableEq, Repr

/-- The loop over `appParts`: every token that `ParseUint` accepts is
appended, converted by `uint32(id)`; the others are skipped. -/
def collectAppIds (appParts : List Str) : List Nat :=
  appParts.foldl
    (fun appIds appStr =>
      match ParseUint32 appStr with
      | some id => appIds ++ [id % 2 ^ 32]
      | none => appIds)
    []

/-- The function `parseAppsInstalled` of `memc_load.go`. `ParseFloat` is
`strconv.ParseFloat(·, 64)`, `none` standing for a non-nil error. The
`log.Printf` warning it may print is `warnsAboutApps` below. -/
def parseAppsInstalled {F : Type} (ParseFloat : Str → Option F) (s : Str) :
    Except ParseError (AppsInstalled F) :=
  let lineParts := Split '\t' (TrimSpace s)
  if lineParts.length < 5 then .error .tooFewParts
  else if (lineParts.getD 0 []).length = 0 then .error .missedDeviceType
  else if (lineParts.getD 1 []).length = 0 then .error .missedDeviceId
  else
    match ParseFloat (lineParts.getD 2 []) with
    | none => .error (.numError (lineParts.getD 2 []))
    | some lat =>
      match ParseFloat (lineParts.getD 3 []) with
      | none => .error (.numError (lineParts.getD 3 []))
      | some lon =>
        let appParts := Split ',' (lineParts.getD 4 [])
        let appIds := collectAppIds appParts
        .ok { DevType := lineParts.getD 0 [], DevId := lineParts.getD 1 [],
              Lat := lat, Lon := lon, Apps := appIds }

/-- Whether `parseAppsInstalled` prints "Not all user apps are digits" for a
fifth field: `len(appParts) != len(appIds)`. -/
def warnsAboutApps (field4 : Str) : Bool :=
  (Split ',' field4).length != (collectAppIds (Split ',' field4)).length

/-- The value of a string of decimal digits, most significant digit first. -/
def decimalValue (s : Str) : Nat :=
  s.foldl (fun a c => a * 10 + (c.toNat - 48)) 0

/-- A sample instance of the coordinate parser, for evaluating the parser on
concrete lines: plain decimal literals `[+-]digits[.digits]`, read as
`(mantissa, number of fractional digits)`. -/
def sampleParseFloat (s : Str) : Option (Int × Nat) :=
  let (neg, body) :=
    match s with
    | '-' :: r => (true, r)
    | '+' :: r => (false, r)
    | r => (false, r)
  match Split '.' body with
  | [i] =>
    if i ≠ [] ∧ i.all isDigit then
      some (if neg then -(decimalValue i : Int) else decimalValue i, 0)
    else none
  | [i, f] =>
    if i ++ f ≠ [] ∧ (i ++ f).all isDigit then
      some (if neg then -(decimalValue (i ++ f) : Int) else decimalValue (i ++ f), f.length)
    else none
  | _ => none

/-! ## The worker and its sender (`sendToMemcache`) -/

/-- `BufferSize`, the capacity of the inbound queues and of the send queue. -/
def BufferSize : Nat := 30

/-- The counters `Stat` of one category. -/
structure Stat where
  Processed : Nat
  Errors : Nat
  deriving DecidableEq, Repr

/-- A serialized payload, as its bytes. -/
abbrev Bytes := List Nat

/-- The pair `PackedData` handed to the sender. -/
structure PackedData where
  Key : Str
  Data : Bytes
  deriving DecidableEq, Repr

/-- Modelled from the spec: the generated message type `UserApps`, whose
declaration is not in `memc_load.go`; it has the three fields the worker fills
and the spec lists for the wire payload (application ids, latitude,
longitude). -/
structure UserApps (F : Type) where
  Apps : List Nat
  Lat : F
  Lon : F
  deriving DecidableEq, Repr

/-- The message the worker builds from a record. -/
def toUserApps {F : Type} (item : AppsInstalled F) : UserApps F :=
  { Apps := item.Apps, Lat := item.Lat, Lon := item.Lon }

/-- The store key, `fmt.Sprintf("%s:%s", item.DevType, item.DevId)`. -/
def storeKey (devType devId : Str) : Str := devType ++ ':' :: devId

/-- The categories `main` creates a queue and a worker for. -/
def knownCategories : List Str :=
  ["idfa".toList, "gaid".toList, "adid".toList, "dvid".toList]

/-- The part of the sender's state the retry loop works on: its two local
counters and the `mc.Set` calls made so far, oldest first. -/
structure SenderState where
  processed : Nat
  errors : Nat
  calls : List PackedData
  deriving DecidableEq, Repr

/-- The loop `for attempt := 0; attempt < 3; attempt++` of the sender. The
store is the oracle `setOk`: the `n`-th call of `mc.Set` on this client (counted
from 0) returns a nil error iff `setOk n`. A success increments `processed` and
breaks; a failure at `attempt == 2` increments `errors`. `fuel` bounds the
number of iterations. -/
def retryLoop (setOk : Nat → Bool) (pair : PackedData) :
    Nat → Nat → SenderState → SenderState
  | 0, _, st => st
  | fuel + 1, attempt, st =>
    if attempt < 3 then
      let ok := setOk st.calls.length
      let st1 := { st with calls := st.calls ++ [pair] }
      if ok then { st1 with processed := (st1.processed + 1) % 2 ^ 64 }
      else if attempt = 2 then
        retryLoop setOk pair fuel (attempt + 1) { st1 with errors := (st1.errors + 1) % 2 ^ 64 }
      else retryLoop setOk pair fuel (attempt + 1) st1
    else st

/-- The body of `case pair := <-sendChan`: the retry loop from `attempt = 0`;
four units of fuel let the loop end on its own guard. -/
def sendPair (setOk : Nat → Bool) (pair : PackedData) (st : SenderState) : SenderState :=
  retryLoop setOk pair 4 0 st

/-- A line printed by the dry-run branch,
`log.Printf("%s - %s -> %s\n", memCacheIP, pair.Key, pair.Data)`, as the three
arguments of its format. -/
structure LogLine where
  addr : Str
  key : Str
  data : Bytes
  deriving DecidableEq, Repr

/-- Where the worker goroutine stands: in its `select`, blocked in
`sendChan <- pair`, or returned. -/
inductive WorkerPc where
  | select
  | send (pair : PackedData)
  | done
  deriving DecidableEq, Repr

/-- Where the sender goroutine stands: never started (dry run), in its
`select`, or returned. -/
inductive SenderPc where
  | absent
  | select
  | done
  deriving DecidableEq, Repr

/-- The fixed arguments of one `sendToMemcache` call and its environment:
the store address, the dry flag, `proto.Marshal` (`none` for a non-nil error)
and the store oracle. -/
structure WorkerConfig (F : Type) where
  memCacheIP : Str
  dry : Bool
  marshal : UserApps F → Option Bytes
  setOk : Nat → Bool

/-- The state of one category: its inbound queue `ch`, the shutdown channel
`exit` (true once closed), the worker's `sendChan` and `exitChan`, the two
goroutines, the sender's local counters and `mc.Set` calls, the shared `stat`,
the log, whether `log.Fatalln` ended the process, and two history variables:
the records pushed on `ch` and the records the worker has received. -/
structure Sys (F : Type) where
  ch : List (AppsInstalled F)
  exit : Bool
  sendChan : List PackedData
  exitChan : Bool
  worker : WorkerPc
  sender : SenderPc
  sst : SenderState
  stat : Stat
  log : List LogLine
  aborted : Bool
  pushed : List (AppsInstalled F)
  received : List (AppsInstalled F)

/-- The moves of the system: the ingestion loop pushes a record, `main` closes
`workerExit`, and each goroutine takes one of the ready cases of its `select`
(or completes its blocked send). -/
inductive Action (F : Type) where
  | push (item : AppsInstalled F)
  | closeExit
  | workerExit
  | workerRecv
  | workerSend
  | senderExit
  | senderRecv

/-- The state when `sendToMemcache` starts; the sender goroutine exists only
when `dry` is false. -/
def Sys.init {F : Type} (cfg : WorkerConfig F) (stat0 : Stat) : Sys F :=
  { ch := [], exit := false, sendChan := [], exitChan := false,
    worker := .select, sender := if cfg.dry then .absent else .select,
    sst := { processed := 0, errors := 0, calls := [] },
    stat := stat0, log := [], aborted := false, pushed := [], received := [] }

/-- One move; `none` when the move is not enabled in the state. Nothing moves
once the process is aborted. A `select` case is enabled when its channel is
ready: a closed channel, or a non-empty queue; a send is enabled when the queue
has room. `main` closes `workerExit` after `loadFiles`, so nothing is pushed
afterwards. -/
def step {F : Type} (cfg : WorkerConfig F) (a : Action F) (s : Sys F) : Option (Sys F) :=
  if s.aborted then none
  else
    match a with
    | .push item =>
      if !s.exit && decide (s.ch.length < BufferSize) then
        some { s with ch := s.ch ++ [item], pushed := s.pushed ++ [item] }
      else none
    | .closeExit =>
      if !s.exit then some { s with exit := true } else none
    | .workerExit =>
      if s.worker = .select ∧ s.exit = true then
        some { s with exitChan := true, worker := .done }
      else none
    | .workerRecv =>
      match s.worker, s.ch with
      | .select, item :: rest =>
        let s1 := { s with ch := rest, received := s.received ++ [item] }
        match cfg.marshal (toUserApps item) with
        | none => some { s1 with aborted := true }
        | some packed =>
          let pair : PackedData := { Key := storeKey item.DevType item.DevId, Data := packed }
          if cfg.dry then
            some { s1 with log := s1.log ++ [⟨cfg.memCacheIP, pair.Key, pair.Data⟩] }
          else some { s1 with worker := .send pair }
      | _, _ => none
    | .workerSend =>
      match s.worker with
      | .send pair =>
        if s.sendChan.length < BufferSize then
          some { s with sendChan := s.sendChan ++ [pair], worker := .select }
        else none
      | _ => none
    | .senderExit =>
      if s.sender = .select ∧ s.exitChan = true then
        some { s with stat := { Processed := s.sst.processed, Errors := s.sst.errors },
                      sender := .done }
      else none
    | .senderRecv =>
      match s.sender, s.sendChan with
      | .select, pair :: rest =>
        some { s with sendChan := rest, sst := sendPair cfg.setOk pair s.sst }
      | _, _ => none

/-- A schedule, run from a state; `none` when one of its moves is not enabled. -/
def run {F : Type} (cfg : WorkerConfig F) : List (Action F) → Sys F → Option (Sys F)
  | [], s => some s
  | a :: as, s =>
    match step cfg a s with
    | none => none
    | some s1 => run cfg as s1

/-- The records that have been pushed but not yet handed to the store: those
still in `ch`, the one the worker holds for `sendChan`, and those in
`sendChan`. -/
def Sys.pending {F : Type} (s : Sys F) : Nat :=
  s.ch.length + (match s.worker with | .send _ => 1 | _ => 0) + s.sendChan.length

/-- A sample record and a sample encoder (the applications as bytes), for
evaluating the worker on concrete runs. -/
def sampleRecord : AppsInstalled (Int × Nat) :=
  { DevType := "idfa".toList, DevId := "1rfw452y52g2gq4g".toList,
    Lat := (5555, 2), Lon := (4242, 2), Apps := [1423, 43, 567, 3, 7, 23] }

/-- The sample encoder: the application ids, one byte each. -/
def sampleMarshal (ua : UserApps (Int × Nat)) : Option Bytes :=
  some (ua.Apps.map (· % 256))

/-- A sample worker configuration for the category `idfa`. -/
def sampleConfig (dry : Bool) (setOk : Nat → Bool) : WorkerConfig (Int × Nat) :=
  { memCacheIP := "127.0.0.1:33013".toList, dry := dry, marshal := sampleMarshal,
    setOk := setOk }

/-- The line the dry-run branch prints for a record, when `proto.Marshal`
accepts it. -/
def dryLine {F : Type} (cfg : WorkerConfig F) (item : AppsInstalled F) : Option LogLine :=
  (cfg.marshal (toUserApps item)).map
    (fun packed => ⟨cfg.memCacheIP, storeKey item.DevType item.DevId, packed⟩)

/-- What a dry-run worker keeps true: the shared counters are untouched, the
sender was never started and no `mc.Set` call was made, the log holds one line
per received record that `proto.Marshal` accepted, in order, the received
records are the pushed ones that are no longer in the inbound queue, the
worker never waits on the send queue, and it returns only after the shutdown
signal. -/
def DryInv {F : Type} (cfg : WorkerConfig F) (stat0 : Stat) (s : Sys F) : Prop :=
  s.stat = stat0 ∧ s.sst = { processed := 0, errors := 0, calls := [] } ∧
    s.sender = .absent ∧ s.sendChan = [] ∧
    s.log = s.received.filterMap (dryLine cfg) ∧
    (s.aborted = false → s.log.length = s.received.length) ∧
    s.received ++ s.ch = s.pushed ∧ (∀ pair, s.worker ≠ .send pair) ∧
    (s.worker = .done → s.exit = true)

/-- What a worker and its sender keep true outside dry runs, as long as the
process is not aborted and fewer than 2^64 records were pushed: every pushed
record is counted as processed, counted as an error, or still pending; the
sender's channel is closed only by the returning worker; and the shared
counters are the initial ones until the sender returns, its local ones
afterwards. -/
def LiveInv {F : Type} (stat0 : Stat) (s : Sys F) : Prop :=
  (s.exitChan = true → s.worker = .done) ∧
    (s.sender = .done → s.exitChan = true) ∧
    s.sender ≠ .absent ∧
    (s.sender = .done → s.stat = { Processed := s.sst.processed, Errors := s.sst.errors }) ∧
    (s.sender ≠ .done → s.stat = stat0) ∧
    (s.aborted = false → s.pushed.length < 2 ^ 64 →
      s.sst.processed + s.sst.errors + s.pending = s.pushed.length)

/-- The store of the sample runs: the first two writes fail, the third
succeeds. -/
def thirdTimeLucky (n : Nat) : Bool := decide (n = 2)

/-- A complete sample run outside dry mode: one record is pushed, encoded,
queued and written (at the third attempt), then the shutdown is signalled and
both goroutines return. -/
def sampleSchedule : List (Action (Int × Nat)) :=
  [.push sampleRecord, .workerRecv, .workerSend, .senderRecv, .closeExit, .workerExit,
    .senderExit]

/-- The state at the end of `sampleSchedule`. -/
def sampleFinal : Sys (Int × Nat) :=
  { ch := [], exit := true, sendChan := [], exitChan := true, worker := .done,
    sender := .done,
    sst := { processed := 1, errors := 0,
             calls := List.replicate 3
               ⟨"idfa:1rfw452y52g2gq4g".toList, [143, 43, 55, 3, 7, 23]⟩ },
    stat := { Processed := 1, Errors := 0 }, log := [], aborted := false,
    pushed := [sampleRecord], received := [sampleRecord] }

/-- A sample dry run: one record is pushed and received, then the shutdown is
signalled and the worker returns. -/
def sampleDrySchedule : List (Action (Int × Nat)) :=
  [.push sampleRecord, .workerRecv, .closeExit, .workerExit]

/-- The state at the end of `sampleDrySchedule`, started with the counters
`(7, 8)`. -/
def sampleDryFinal : Sys (Int × Nat) :=
  { ch := [], exit := true, sendChan := [], exitChan := true, worker := .done,
    sender := .absent,
    sst := { processed := 0, errors := 0, calls := [] },
    stat := { Processed := 7, Errors := 8 },
    log := [⟨"127.0.0.1:33013".toList, "idfa:1rfw452y52g2gq4g".toList,
             [143, 43, 55, 3, 7, 23]⟩],
    aborted := false, pushed := [sampleRecord], received := [sampleRecord] }

/-! ## The file loop (`loadFile`, `loadFiles`) -/

/-- An error value of the file system, as its message. -/
abbrev IOError := Str

/-- How a function that may call `log.Fatal*` ends: it returns, or the process
is ended with the logged message. -/
inductive Outcome (α : Type) where
  | returned (a : α)
  | fatal (msg : Str)
  deriving DecidableEq, Repr

/-- A record sent on the queue `dataChannels[queue]`. -/
structure Push (F : Type) where
  queue : Str
  item : AppsInstalled F
  deriving DecidableEq, Repr

/-- What reading a file gives once it is open: the tokens that
`scanner.Text()` returns, in order, and the value of `scanner.Err()` after
the loop. -/
structure FileData where
  lines : List Str
  scanErr : Option IOError
  deriving DecidableEq, Repr

/-- The loop `for scanner.Scan()` of `loadFile`, from a value of `parseErr`
and the records pushed so far. `dataChannels` is the key set of the map of
queues. A send `ch <- item` is taken to complete (the worker of the queue
receives). An unknown category ends the process with `log.Fatalf`. -/
def scanLines {F : Type} (ParseFloat : Str → Option F) (dataChannels : List Str) :
    List Str → Nat → List (Push F) → List (Push F) × Outcome Nat
  | [], parseErr, pushes => (pushes, .returned parseErr)
  | text :: rest, parseErr, pushes =>
    let line := TrimSpace text
    if line.length = 0 then scanLines ParseFloat dataChannels rest parseErr pushes
    else
      match parseAppsInstalled ParseFloat line with
      | .error _ =>
        scanLines ParseFloat dataChannels rest ((parseErr + 1) % 2 ^ 64) pushes
      | .ok item =>
        if item.DevType ∈ dataChannels then
          scanLines ParseFloat dataChannels rest parseErr (pushes ++ [⟨item.DevType, item⟩])
        else
          (pushes, .fatal ("Unknow device type: ".toList ++ item.DevType ++ "\n".toList))

/-- The function `loadFile`. `fs fn` is what `os.Open` and `gzip.NewReader`
give for the name: an error, or the content read by the scanner. The result
is the records pushed and the returned pair `(parseErr, err)`. -/
def loadFile {F : Type} (fs : Str → Except IOError FileData)
    (ParseFloat : Str → Option F) (dataChannels : List Str) (fn : Str) :
    List (Push F) × Outcome (Nat × Option IOError) :=
  match fs fn with
  | .error e => ([], .returned (0, some e))
  | .ok data =>
    match scanLines ParseFloat dataChannels data.lines 0 [] with
    | (pushes, .fatal msg) => (pushes, .fatal msg)
    | (pushes, .returned parseErr) => (pushes, .returned (parseErr, data.scanErr))

/-- What `loadFiles` has done when it ends: the records pushed, the files
renamed, and the returned pair `(totalParseErr, err)` or the abort. -/
structure Ingest (F : Type) where
  pushes : List (Push F)
  renamed : List Str
  outcome : Outcome (Nat × Option IOError)
  deriving DecidableEq, Repr

/-- The loop `for _, fn := range matches` of `loadFiles`, from a value of
`totalParseErr`, the records pushed and the files renamed so far.
`dotRename fn` is the error of `dotRename(fn)`, `none` for nil. -/
def loadFilesLoop {F : Type} (fs : Str → Except IOError FileData)
    (dotRename : Str → Option IOError) (ParseFloat : Str → Option F)
    (dataChannels : List Str) :
    List Str → Nat → List (Push F) → List Str → Ingest F
  | [], totalParseErr, pushes, renamed =>
    { pushes := pushes, renamed := renamed, outcome := .returned (totalParseErr, none) }
  | fn :: rest, totalParseErr, pushes, renamed =>
    match loadFile fs ParseFloat dataChannels fn with
    | (ps, .fatal msg) =>
      { pushes := pushes ++ ps, renamed := renamed, outcome := .fatal msg }
    | (ps, .returned (_, some err)) =>
      { pushes := pushes ++ ps, renamed := renamed, outcome := .returned (0, some err) }
    | (ps, .returned (parseErr, none)) =>
      match dotRename fn with
      | some err =>
        { pushes := pushes ++ ps, renamed := renamed,
          outcome := .fatal ("Failed to rename file: ".toList ++ err ++ "\n".toList) }
      | none =>
        loadFilesLoop fs dotRename ParseFloat dataChannels rest
          ((totalParseErr + parseErr) % 2 ^ 64) (pushes ++ ps) (renamed ++ [fn])

/-- The function `loadFiles`. `glob` is the result of
`filepath.Glob(config.Pattern)`. -/
def loadFiles {F : Type} (glob : Except IOError (List Str))
    (fs : Str → Except IOError FileData) (dotRename : Str → Option IOError)
    (ParseFloat : Str → Option F) (dataChannels : List Str) : Ingest F :=
  match glob with
  | .error err => { pushes := [], renamed := [], outcome := .returned (0, some err) }
  | .ok files => loadFilesLoop fs dotRename ParseFloat dataChannels files 0 [] []

/-- A line that is empty once trimmed: `loadFile` skips it. -/
def isBlank (text : Str) : Bool := (TrimSpace text).length == 0

/-- A line that is not blank and that `parseAppsInstalled` rejects. -/
def isRejected {F : Type} (ParseFloat : Str → Option F) (text : Str) : Bool :=
  !isBlank text &&
    (match parseAppsInstalled ParseFloat text with
     | .error _ => true
     | .ok _ => false)

/-- The record of a line that is not blank and that `parseAppsInstalled`
accepts. -/
def acceptedRecord {F : Type} (ParseFloat : Str → Option F) (text : Str) :
    Option (AppsInstalled F) :=
  if isBlank text then none
  else
    match parseAppsInstalled ParseFloat text with
    | .error _ => none
    | .ok item => some item

/-- A sample file system: two files of the drop directory, the first with a
valid line, a blank line, a malformed line and a second valid line, the second
with one valid line. -/
def sampleFs (fn : Str) : Except IOError FileData :=
  if fn = "a.tsv.gz".toList then
    .ok { lines := ["idfa\t1rfw452y52g2gq4g\t55.55\t42.42\t1423,43,567,3,7,23".toList,
                    "   ".toList,
                    "idfa\tonly-two-fields".toList,
                    "gaid\t7rfw452y52g2gq4g\t55.55\t42.42\t7423,424".toList],
          scanErr := none }
  else if fn = "b.tsv.gz".toList then
    .ok { lines := ["dvid\tabc\t1\t2\t5".toList], scanErr := none }
  else .error "no such file".toList

/-- A sample `dotRename` that fails on the first file. -/
def sampleRenameFails (fn : Str) : Option IOError :=
  if fn = "a.tsv.gz".toList then some "permission denied".toList else none

/-- A line whose record, if the parser accepts the line, has a category with a
queue in `dataChannels`. -/
def hasQueue {F : Type} (ParseFloat : Str → Option F) (dataChannels : List Str)
    (text : Str) : Bool :=
  match parseAppsInstalled ParseFloat text with
  | .error _ => true
  | .ok item => decide (item.DevType ∈ dataChannels)

/-! ## The statistics verdict (`printStatistics`) -/

/-- A non-negative `float64` (the values `printStatistics` computes with are
conversions of `uint64` values and their quotient): the finite value
`mant * 2 ^ (bexp - 1075)` (`bexp` is the biased exponent field, `mant` carries
the implicit bit; a subnormal has `bexp = 1` and `mant < 2 ^ 52`), `+Inf`, or
NaN. -/
inductive Float64 where
  | fin (mant : Nat) (bexp : Nat)
  | inf
  | nan
  deriving DecidableEq, Repr

/-- The integer nearest to `n / d`, ties to the even one. -/
def roundNearestEven (n d : Nat) : Nat :=
  let q := n / d
  let r := n % d
  if 2 * r < d then q
  else if 2 * r > d then q + 1
  else if q % 2 = 0 then q else q + 1

/-- The shifts of the binary search for the position of the leading bit. -/
def log2Steps : List Nat := [4096, 2048, 1024, 512, 256, 128, 64, 32, 16, 8, 4, 2, 1]

/-- The binary search for the position of the leading bit: whenever `x` has a
bit at position `k` or above, drop the low `k` bits and add `k`. -/
def log2Go : List Nat → Nat → Nat → Nat
  | [], _, acc => acc
  | k :: ks, x, acc =>
    if x >>> k ≠ 0 then log2Go ks (x >>> k) (acc + k) else log2Go ks x acc

/-- The position of the leading bit of `x` (0 for `x = 0`), that is
`Nat.log2 x`: by binary search below `2 ^ 8192`, where it can be evaluated. -/
def floorLog2 (x : Nat) : Nat :=
  if x >>> 8192 = 0 then log2Go log2Steps x 0 else Nat.log2 x

/-- The `float64` nearest to the rational `n / d` (`d > 0`), ties to even, as
IEEE 754 prescribes for conversions and for division: the exponent is the one
that puts the quotient of `n * 2 ^ 1075` by `d * 2 ^ E` in `[2 ^ 52, 2 ^ 53)`,
or 1 in the subnormal range; a mantissa rounded up to `2 ^ 53` moves to the next
exponent, and an exponent field of 2047 or more is `+Inf`. -/
def roundQuot (n d : Nat) : Float64 :=
  let N := n <<< 1075
  let E := max 1 (floorLog2 (N / d) - 52)
  let m := roundNearestEven N (d <<< E)
  let mE : Nat × Nat := if m = 2 ^ 53 then (2 ^ 52, E + 1) else (m, E)
  if mE.2 ≥ 2047 then .inf else .fin mE.1 mE.2

/-- The conversion `float64(n)` of a `uint64`. -/
def ofUint64 (n : Nat) : Float64 := roundQuot n 1

/-- The quotient `a / b` of non-negative `float64` values. -/
def fdiv : Float64 → Float64 → Float64
  | .fin m1 e1, .fin m2 e2 =>
    if m2 = 0 then (if m1 = 0 then .nan else .inf)
    else roundQuot (m1 <<< e1) (m2 <<< e2)
  | .fin _ _, .inf => .fin 0 1
  | .inf, .fin _ _ => .inf
  | _, _ => .nan

/-- The comparison `a < b` of non-negative `float64` values; false when one of
them is NaN. -/
def flt : Float64 → Float64 → Bool
  | .fin m1 e1, .fin m2 e2 => decide (m1 <<< e1 < m2 <<< e2)
  | .fin _ _, .inf => true
  | _, _ => false

/-- The constant `NormalErrRate = 0.01`, converted to `float64` for the
comparison with `errRate`. -/
def NormalErrRate : Float64 := roundQuot 1 100

/-- What `printStatistics` reports: nothing (it returns when `processed == 0`),
"Acceptable error rate" with `log.Printf`, or "High error rate" with
`log.Fatalf`, which ends the process with a non-zero status. -/
inductive Verdict where
  | noVerdict
  | accepted
  | failed
  deriving DecidableEq, Repr

/-- The two sums of `printStatistics`, in `uint64` arithmetic. -/
def sumStats (parseErrors : Nat) (stats : List Stat) : Nat × Nat :=
  stats.foldl
    (fun acc stat => ((acc.1 + stat.Processed) % 2 ^ 64, (acc.2 + stat.Errors) % 2 ^ 64))
    (0, parseErrors)

/-- The function `printStatistics`. -/
def printStatistics (parseErrors : Nat) (stats : List Stat) : Verdict :=
  let processed := (sumStats parseErrors stats).1
  let errors := (sumStats parseErrors stats).2
  if processed = 0 then .noVerdict
  else
    let errRate := fdiv (ofUint64 errors) (ofUint64 processed)
    if flt errRate NormalErrRate then .accepted else .failed


/-- The total of successes: the sum of the `Processed` fields. -/
def totalProcessed (stats : List Stat) : Nat := (stats.map (fun stat => stat.Processed)).sum

/-- The total of failures: the parse errors plus the sum of the `Errors`
fields. -/
def totalFailures (parseErrors : Nat) (stats : List Stat) : Nat :=
  parseErrors + (stats.map (fun stat => stat.Errors)).sum

/-! ## Facts about the library models -/

theorem isDigit_digit_le {c : Char} (h : isDigit c = true) : c.toNat - 48 ≤ 9 := by
  simp only [isDigit, Bool.and_eq_true, decide_eq_true_eq] at h
  omega

/-- The left fold of decimal digits from an accumulator. -/
theorem foldl_digits_ge (cs : Str) (n : Nat) :
    n ≤ cs.foldl (fun a c => a * 10 + (c.toNat - 48)) n := by
  induction cs generalizing n with
  | nil => simp
  | cons c cs ih =>
    simp only [List.foldl_cons]
    exact le_trans (by omega) (ih _)

theorem ParseUintLoop_eq_some (cs : Str) (n v : Nat) (hn : n ≤ maxVal32) :
    ParseUintLoop n cs = some v ↔
      cs.all isDigit = true ∧ cs.foldl (fun a c => a * 10 + (c.toNat - 48)) n = v ∧
        v ≤ maxVal32 := by
  induction cs generalizing n with
  | nil =>
    simp only [ParseUintLoop, List.all_nil, List.foldl_nil, true_and, Option.some.injEq]
    constructor
    · rintro rfl; exact ⟨rfl, hn⟩
    · rintro ⟨h, -⟩; exact h
  | cons c cs ih =>
    by_cases hc : isDigit c = true
    · have hd := isDigit_digit_le hc
      have hmax : maxVal32 = 4294967295 := by decide
      have hcut : maxUint64 / 10 + 1 = 1844674407370955162 := by decide
      have h1 : ¬ (n ≥ maxUint64 / 10 + 1) := by rw [hcut]; omega
      have h2 : (n * 10) % 2 ^ 64 = n * 10 := Nat.mod_eq_of_lt (by norm_num; omega)
      have h3 : (n * 10 + (c.toNat - 48)) % 2 ^ 64 = n * 10 + (c.toNat - 48) :=
        Nat.mod_eq_of_lt (by norm_num; omega)
      simp only [ParseUintLoop, hc, if_true, h1, if_false, h2, h3, List.all_cons,
        Bool.true_and, List.foldl_cons]
      by_cases hbig : n * 10 + (c.toNat - 48) > maxVal32
      · have : ¬ (n * 10 + (c.toNat - 48) < n * 10) := by omega
        simp only [this, hbig, or_true, if_true]
        constructor
        · intro h; cases h
        · rintro ⟨-, hv, hle⟩
          have := foldl_digits_ge cs (n * 10 + (c.toNat - 48))
          omega
      · have : ¬ (n * 10 + (c.toNat - 48) < n * 10 ∨ n * 10 + (c.toNat - 48) > maxVal32) := by
          omega
        simp only [this, if_false]
        exact ih _ (by omega)
    · simp [ParseUintLoop, hc]

theorem ParseUint32_eq_some (tok : Str) (v : Nat) :
    ParseUint32 tok = some v ↔
      tok ≠ [] ∧ tok.all isDigit = true ∧ decimalValue tok = v ∧ v ≤ 2 ^ 32 - 1 := by
  unfold ParseUint32
  by_cases h : tok = []
  · simp [h]
  · simp only [h, if_false, ne_eq, not_false_eq_true, true_and]
    exact ParseUintLoop_eq_some tok 0 v (by decide)

theorem ParseUint32_le {tok : Str} {v : Nat} (h : ParseUint32 tok = some v) :
    v % 2 ^ 32 = v := by
  have := ((ParseUint32_eq_some tok v).1 h).2.2.2
  exact Nat.mod_eq_of_lt (by omega)

theorem collectAppIds_foldl (l : List Str) (acc : List Nat) :
    l.foldl (fun appIds appStr =>
      match ParseUint32 appStr with
      | some id => appIds ++ [id % 2 ^ 32]
      | none => appIds) acc = acc ++ l.filterMap ParseUint32 := by
  induction l generalizing acc with
  | nil => simp
  | cons a l ih =>
    simp only [List.foldl_cons]
    rw [ih]
    cases h : ParseUint32 a with
    | none => simp [List.filterMap_cons, h]
    | some v =>
      have hv := ParseUint32_le h
      simp only [List.filterMap_cons, h, hv, List.append_assoc, List.singleton_append]

theorem collectAppIds_eq_filterMap (l : List Str) :
    collectAppIds l = l.filterMap ParseUint32 := by
  unfold collectAppIds
  rw [collectAppIds_foldl]; simp

/-! ## The parser -/

theorem TrimSpace_eq (s : Str) :
    TrimSpace s = (s.dropWhile isSpace).rdropWhile isSpace := rfl

/-- Trimming twice is trimming once. -/
theorem TrimSpace_idem (s : Str) : TrimSpace (TrimSpace s) = TrimSpace s := by
  rw [TrimSpace_eq s]
  cases h : s.dropWhile isSpace with
  | nil => rfl
  | cons a t =>
    have ha : ¬ isSpace a = true := by
      have := List.head?_dropWhile_not isSpace s
      rw [h] at this
      simpa using this
    obtain ⟨u, hu⟩ := List.rdropWhile_prefix isSpace (a :: t)
    have hne : List.rdropWhile isSpace (a :: t) ≠ [] := by
      intro hnil
      have := (List.rdropWhile_eq_nil_iff.1 hnil) a (List.mem_cons_self _ _)
      exact ha this
    cases hr : List.rdropWhile isSpace (a :: t) with
    | nil => exact absurd hr hne
    | cons b r =>
      rw [hr] at hu
      have hb : b = a := by
        have := congrArg List.head? hu
        simpa using this
      subst hb
      rw [TrimSpace_eq, List.dropWhile_cons_of_neg ha, ← hr, List.rdropWhile_idempotent]

/-- The parser on a line whose trimmed form has the five leading fields
`f0 … f4`. -/
theorem parseAppsInstalled_fields {F : Type} (ParseFloat : Str → Option F) (s : Str)
    (f0 f1 f2 f3 f4 : Str) (rest : List Str) (lat lon : F)
    (hs : Split '\t' (TrimSpace s) = f0 :: f1 :: f2 :: f3 :: f4 :: rest)
    (h0 : f0 ≠ []) (h1 : f1 ≠ [])
    (hlat : ParseFloat f2 = some lat) (hlon : ParseFloat f3 = some lon) :
    parseAppsInstalled ParseFloat s =
      .ok { DevType := f0, DevId := f1, Lat := lat, Lon := lon,
            Apps := (Split ',' f4).filterMap ParseUint32 } := by
  unfold parseAppsInstalled
  simp only [hs, List.length_cons, List.getD_cons_zero, List.getD_cons_succ, hlat, hlon,
    collectAppIds_eq_filterMap]
  have h0' : ¬ f0.length = 0 := by simpa using h0
  have h1' : ¬ f1.length = 0 := by simpa using h1
  have h5 : ¬ (rest.length + 1 + 1 + 1 + 1 + 1 < 5) := by omega
  simp only [h0', h1', h5, if_false]

theorem parseAppsInstalled_eq (s : Str) {F : Type} (ParseFloat : Str → Option F) :
    parseAppsInstalled ParseFloat (TrimSpace s) = parseAppsInstalled ParseFloat s := by
  unfold parseAppsInstalled
  rw [TrimSpace_idem]

/-- C1, as stated, fails: the line `"idfa\tabc\t1\t2\t"` split on the tab
character has five fields (the fifth is empty), a non-empty category and
device id, and coordinates `1` and `2`; the claim promises a record with no
applications, but `parseAppsInstalled` trims the trailing tab before it splits
and, for every coordinate parser, rejects the line with "Too few parts". -/
theorem parse_raw_fields_counterexample :
    Split '\t' "idfa\tabc\t1\t2\t".toList
        = ["idfa".toList, "abc".toList, "1".toList, "2".toList, []] ∧
      sampleParseFloat "1".toList = some (1, 0) ∧
      sampleParseFloat "2".toList = some (2, 0) ∧
      ∀ (F : Type) (ParseFloat : Str → Option F),
        parseAppsInstalled ParseFloat "idfa\tabc\t1\t2\t".toList = .error .tooFewParts :=
  ⟨by decide, by decide, by decide, fun _ _ => rfl⟩

/-- C1, amended: for every line whose whitespace-trimmed form, split on the tab
character, has at least 5 fields, a non-empty field 0 and field 1, and fields 2
and 3 that parse as floating-point numbers, `parseAppsInstalled` returns a
record (no error) whose DevType and DevId are fields 0 and 1, whose Lat and Lon
are the parsed values of fields 2 and 3, and whose Apps is the in-order list of
the values of the comma-separated tokens of field 4 that `ParseUint` accepts;
fields beyond the fifth are ignored. -/
theorem parse_valid_trimmed_line {F : Type} (ParseFloat : Str → Option F) (s : Str)
    (lat lon : F)
    (hlen : 5 ≤ (Split '\t' (TrimSpace s)).length)
    (hcat : (Split '\t' (TrimSpace s)).getD 0 [] ≠ [])
    (hdev : (Split '\t' (TrimSpace s)).getD 1 [] ≠ [])
    (hlat : ParseFloat ((Split '\t' (TrimSpace s)).getD 2 []) = some lat)
    (hlon : ParseFloat ((Split '\t' (TrimSpace s)).getD 3 []) = some lon) :
    parseAppsInstalled ParseFloat s =
      .ok { DevType := (Split '\t' (TrimSpace s)).getD 0 [],
            DevId := (Split '\t' (TrimSpace s)).getD 1 [],
            Lat := lat, Lon := lon,
            Apps := (Split ',' ((Split '\t' (TrimSpace s)).getD 4 [])).filterMap
              ParseUint32 } := by
  match hfs : Split '\t' (TrimSpace s), hlen with
  | f0 :: f1 :: f2 :: f3 :: f4 :: rest, _ =>
    rw [hfs] at hcat hdev hlat hlon
    simp only [List.getD_cons_zero, List.getD_cons_succ] at hcat hdev hlat hlon ⊢
    exact parseAppsInstalled_fields ParseFloat s f0 f1 f2 f3 f4 rest lat lon hfs hcat hdev
      hlat hlon

/-- The amended C1 at the sample line of `prototest`. -/
theorem parse_valid_trimmed_line_witness :
    parseAppsInstalled sampleParseFloat
        "idfa\t1rfw452y52g2gq4g\t55.55\t42.42\t1423,43,567,3,7,23".toList =
      .ok { DevType := "idfa".toList, DevId := "1rfw452y52g2gq4g".toList,
            Lat := (5555, 2), Lon := (4242, 2), Apps := [1423, 43, 567, 3, 7, 23] } :=
  (parse_valid_trimmed_line sampleParseFloat
      "idfa\t1rfw452y52g2gq4g\t55.55\t42.42\t1423,43,567,3,7,23".toList (5555, 2) (4242, 2)
      (by decide) (by decide) (by decide) (by decide) (by decide)).trans (by decide)

/-- The trimmed line is empty or starts with a character that is not white
space. -/
theorem TrimSpace_head (s : Str) :
    TrimSpace s = [] ∨ ∃ a r, TrimSpace s = a :: r ∧ isSpace a = false := by
  rw [TrimSpace_eq s]
  cases h : s.dropWhile isSpace with
  | nil => exact Or.inl rfl
  | cons a t =>
    have ha : ¬ isSpace a = true := by
      have := List.head?_dropWhile_not isSpace s
      rw [h] at this
      simpa using this
    obtain ⟨u, hu⟩ := List.rdropWhile_prefix isSpace (a :: t)
    cases hr : List.rdropWhile isSpace (a :: t) with
    | nil =>
      exact absurd ((List.rdropWhile_eq_nil_iff.1 hr) a (List.mem_cons_self _ _)) ha
    | cons b r =>
      rw [hr] at hu
      have hb : b = a := by
        have := congrArg List.head? hu
        simpa using this
      subst hb
      exact Or.inr ⟨b, r, rfl, by simpa using ha⟩

/-- A string that starts with a character other than the separator has a
non-empty first piece. -/
theorem Split_head (sep c : Char) (cs : Str) (h : c ≠ sep) :
    ∃ f fs, Split sep (c :: cs) = (c :: f) :: fs := by
  unfold Split
  rw [if_neg h]
  cases Split sep cs with
  | nil => exact ⟨[], [], rfl⟩
  | cons f fs => exact ⟨f, fs, rfl⟩

/-- C2, where the code breaks the claim: the line `"\tidfa\tabc\t1\t2\t3"`
split on the tab character has an empty field 0 (category), so the claim
promises an error, and `parseAppsInstalled` has a guard for it ("Missed device
type"); but the line is trimmed before it is split, the leading tab is stripped
with the white space, and the record of category `idfa` is returned. The guard
can never fire: for no coordinate parser and no line is the error "Missed
device type" returned. The sibling guard for the device id does fire. -/
theorem missed_device_type_never_reported :
    (Split '\t' "\tidfa\tabc\t1\t2\t3".toList).getD 0 [] = [] ∧
      5 ≤ (Split '\t' "\tidfa\tabc\t1\t2\t3".toList).length ∧
      parseAppsInstalled sampleParseFloat "\tidfa\tabc\t1\t2\t3".toList =
        .ok { DevType := "idfa".toList, DevId := "abc".toList, Lat := (1, 0), Lon := (2, 0),
              Apps := [3] } ∧
      (∀ (F : Type) (ParseFloat : Str → Option F) (s : Str),
        parseAppsInstalled ParseFloat s ≠ .error .missedDeviceType) ∧
      parseAppsInstalled sampleParseFloat "idfa\t\t1\t2\t3".toList
        = .error .missedDeviceId := by
  refine ⟨by decide, by decide, by decide, ?_, by decide⟩
  intro F ParseFloat s herr
  unfold parseAppsInstalled at herr
  simp only at herr
  split_ifs at herr with h5 h0 h1
  · cases herr
  · rcases TrimSpace_head s with hnil | ⟨a, r, har, hsp⟩
    · rw [hnil] at h5
      exact h5 (by decide)
    · have hat : a ≠ '\t' := by
        intro hh
        rw [hh] at hsp
        exact absurd hsp (by decide)
      obtain ⟨f, fs, hsplit⟩ := Split_head '\t' a r hat
      rw [har, hsplit] at h0
      simp at h0
  · cases herr
  · split at herr
    · cases herr
    · split at herr
      · cases herr
      · cases herr

/-- What the parser rejects, in terms of the trimmed line: if its split on the
tab character has fewer than 5 fields, or an empty field 0, or an empty field 1,
or a field 2 or a field 3 that does not parse as a floating-point number,
`parseAppsInstalled` returns an error and no record. -/
theorem parse_rejects_trimmed_line {F : Type} (ParseFloat : Str → Option F) (s : Str)
    (h : (Split '\t' (TrimSpace s)).length < 5 ∨
      (Split '\t' (TrimSpace s)).getD 0 [] = [] ∨
      (Split '\t' (TrimSpace s)).getD 1 [] = [] ∨
      ParseFloat ((Split '\t' (TrimSpace s)).getD 2 []) = none ∨
      ParseFloat ((Split '\t' (TrimSpace s)).getD 3 []) = none) :
    (∃ e, parseAppsInstalled ParseFloat s = .error e) ∧
      ∀ r, parseAppsInstalled ParseFloat s ≠ .ok r := by
  have key : ∃ e, parseAppsInstalled ParseFloat s = .error e := by
    unfold parseAppsInstalled
    simp only []
    split_ifs with h5 h0 h1
    · exact ⟨_, rfl⟩
    · exact ⟨_, rfl⟩
    · exact ⟨_, rfl⟩
    · have h0' : (Split '\t' (TrimSpace s)).getD 0 [] ≠ [] := by
        intro hh; exact h0 (by rw [hh]; rfl)
      have h1' : (Split '\t' (TrimSpace s)).getD 1 [] ≠ [] := by
        intro hh; exact h1 (by rw [hh]; rfl)
      cases hlat : ParseFloat ((Split '\t' (TrimSpace s)).getD 2 []) with
      | none => exact ⟨_, rfl⟩
      | some lat =>
        cases hlon : ParseFloat ((Split '\t' (TrimSpace s)).getD 3 []) with
        | none => exact ⟨_, rfl⟩
        | some lon =>
          rcases h with h | h | h | h | h
          · exact absurd h h5
          · exact absurd h h0'
          · exact absurd h h1'
          · rw [hlat] at h; cases h
          · rw [hlon] at h; cases h
  obtain ⟨e, he⟩ := key
  exact ⟨⟨e, he⟩, fun r hr => by rw [he] at hr; cases hr⟩

/-- The rejection at a line whose latitude is not a number. -/
theorem parse_rejects_trimmed_line_witness :
    (∃ e, parseAppsInstalled sampleParseFloat "idfa\tabc\tnorth\t2\t3".toList = .error e) ∧
      ∀ r, parseAppsInstalled sampleParseFloat "idfa\tabc\tnorth\t2\t3".toList ≠ .ok r :=
  parse_rejects_trimmed_line sampleParseFloat "idfa\tabc\tnorth\t2\t3".toList
    (Or.inr (Or.inr (Or.inr (Or.inl (by decide)))))

/-- C5: on a line that passes the field-count, category, device-id and
coordinate checks, whatever field 4 holds the parser returns a record, and its
Apps is exactly the list, in the original order, of the decimal values of those
comma-separated tokens of field 4 that are non-empty, consist of decimal digits
only (so carry no sign) and have a value of at most 2^32 - 1; every other token
is dropped, none is truncated or wrapped. -/
theorem apps_field_never_rejects {F : Type} (ParseFloat : Str → Option F) (s : Str)
    (f0 f1 f2 f3 f4 : Str) (rest : List Str) (lat lon : F)
    (hs : Split '\t' (TrimSpace s) = f0 :: f1 :: f2 :: f3 :: f4 :: rest)
    (hcat : f0 ≠ []) (hdev : f1 ≠ [])
    (hlat : ParseFloat f2 = some lat) (hlon : ParseFloat f3 = some lon) :
    ∃ r, parseAppsInstalled ParseFloat s = .ok r ∧
      r.Apps = ((Split ',' f4).filter
          (fun tok => decide (tok ≠ []) && tok.all isDigit &&
            decide (decimalValue tok ≤ 2 ^ 32 - 1))).map decimalValue ∧
      r.Apps.length ≤ (Split ',' f4).length := by
  refine ⟨_, parseAppsInstalled_fields ParseFloat s f0 f1 f2 f3 f4 rest lat lon hs hcat hdev
    hlat hlon, ?_, ?_⟩
  · simp only
    induction Split ',' f4 with
    | nil => rfl
    | cons tok toks ih =>
      rw [List.filterMap_cons, List.filter_cons]
      cases hp : ParseUint32 tok with
      | none =>
        have hno : ¬ (tok ≠ [] ∧ tok.all isDigit = true ∧ decimalValue tok ≤ 2 ^ 32 - 1) := by
          rintro ⟨a, b, c⟩
          have := (ParseUint32_eq_some tok (decimalValue tok)).2 ⟨a, b, rfl, c⟩
          rw [hp] at this; cases this
        have : (decide (tok ≠ []) && tok.all isDigit &&
            decide (decimalValue tok ≤ 2 ^ 32 - 1)) = false := by
          rw [Bool.eq_false_iff]
          intro hh
          simp only [Bool.and_eq_true, decide_eq_true_eq] at hh
          exact hno ⟨hh.1.1, hh.1.2, hh.2⟩
        simp only [this, ih]
        rfl
      | some v =>
        obtain ⟨a, b, c, d⟩ := (ParseUint32_eq_some tok v).1 hp
        subst c
        have : (decide (tok ≠ []) && tok.all isDigit &&
            decide (decimalValue tok ≤ 2 ^ 32 - 1)) = true := by
          simp only [Bool.and_eq_true, decide_eq_true_eq]
          exact ⟨⟨a, b⟩, by omega⟩
        simp only [this, if_true, List.map_cons, ih]
  · exact List.length_filterMap_le _ _

/-- C5 at a line whose fifth field mixes valid ids with an empty token, a word,
signed numbers, leading zeros, the largest id and two numbers that do not fit
32 bits. -/
theorem apps_field_never_rejects_witness :
    ∃ r, parseAppsInstalled sampleParseFloat
        "gaid\tabc\t1\t2\t3,x,-4,+5,4294967295,4294967296,007,,99999999999999999999".toList
          = .ok r ∧
      r.Apps = (["3".toList, "x".toList, "-4".toList, "+5".toList, "4294967295".toList,
          "4294967296".toList, "007".toList, [], "99999999999999999999".toList].filter
          (fun tok => decide (tok ≠ []) && tok.all isDigit &&
            decide (decimalValue tok ≤ 2 ^ 32 - 1))).map decimalValue ∧
      r.Apps.length ≤ 9 :=
  apps_field_never_rejects sampleParseFloat
    "gaid\tabc\t1\t2\t3,x,-4,+5,4294967295,4294967296,007,,99999999999999999999".toList
    "gaid".toList "abc".toList "1".toList "2".toList
    "3,x,-4,+5,4294967295,4294967296,007,,99999999999999999999".toList [] (1, 0) (2, 0)
    (by decide) (by decide) (by decide) (by decide) (by decide)

/-! ## The retry loop -/

/-- The retry loop ends on its own guard: more fuel than four changes nothing. -/
theorem retryLoop_fuel (setOk : Nat → Bool) (pair : PackedData) (st : SenderState)
    (fuel : Nat) : retryLoop setOk pair (fuel + 4) 0 st = sendPair setOk pair st := by
  unfold sendPair
  simp only [retryLoop]
  cases setOk st.calls.length <;> simp

/-- The three possible runs of the retry loop. -/
theorem sendPair_cases (setOk : Nat → Bool) (pair : PackedData) (st : SenderState) :
    sendPair setOk pair st =
      if setOk st.calls.length then
        { processed := (st.processed + 1) % 2 ^ 64, errors := st.errors,
          calls := st.calls ++ [pair] }
      else if setOk (st.calls.length + 1) then
        { processed := (st.processed + 1) % 2 ^ 64, errors := st.errors,
          calls := st.calls ++ [pair, pair] }
      else if setOk (st.calls.length + 2) then
        { processed := (st.processed + 1) % 2 ^ 64, errors := st.errors,
          calls := st.calls ++ [pair, pair, pair] }
      else
        { processed := st.processed, errors := (st.errors + 1) % 2 ^ 64,
          calls := st.calls ++ [pair, pair, pair] } := by
  unfold sendPair
  simp only [retryLoop]
  cases setOk st.calls.length <;> simp

/-- C3: for every record (the pair handed to the sender), every sequence of
store-write outcomes and every state of the sender, the retry loop makes `n`
calls of `mc.Set` for that pair with `1 ≤ n ≤ 3`, all before the last one
failed, and it stops before the third only on a success. If one of the (at most)
three outcomes is a success, `processed` is incremented by one (as a `uint64`)
and `errors` is unchanged; if all three fail, `errors` is incremented by one and
`processed` is unchanged. From zero counters, fail, fail, succeed gives one
success and zero failures, and fail, fail, fail gives zero successes and one
failure. -/
theorem retry_at_most_three (setOk : Nat → Bool) (pair : PackedData) (st : SenderState) :
    (∃ n, 1 ≤ n ∧ n ≤ 3 ∧
      (sendPair setOk pair st).calls = st.calls ++ List.replicate n pair ∧
      (∀ i, i + 1 < n → setOk (st.calls.length + i) = false) ∧
      (n < 3 → setOk (st.calls.length + (n - 1)) = true)) ∧
    ((setOk st.calls.length = true ∨ setOk (st.calls.length + 1) = true ∨
        setOk (st.calls.length + 2) = true) →
      (sendPair setOk pair st).processed = (st.processed + 1) % 2 ^ 64 ∧
      (st.processed + 1 < 2 ^ 64 → (sendPair setOk pair st).processed = st.processed + 1) ∧
      (sendPair setOk pair st).errors = st.errors) ∧
    ((setOk st.calls.length = false ∧ setOk (st.calls.length + 1) = false ∧
        setOk (st.calls.length + 2) = false) →
      (sendPair setOk pair st).errors = (st.errors + 1) % 2 ^ 64 ∧
      (st.errors + 1 < 2 ^ 64 → (sendPair setOk pair st).errors = st.errors + 1) ∧
      (sendPair setOk pair st).processed = st.processed) ∧
    sendPair (fun i => decide (i = 2)) pair { processed := 0, errors := 0, calls := [] } =
      { processed := 1, errors := 0, calls := [pair, pair, pair] } ∧
    sendPair (fun _ => false) pair { processed := 0, errors := 0, calls := [] } =
      { processed := 0, errors := 1, calls := [pair, pair, pair] } := by
  refine ⟨?_, ?_, ?_, ?_, ?_⟩
  · rw [sendPair_cases]
    cases h0 : setOk st.calls.length
    · cases h1 : setOk (st.calls.length + 1)
      · refine ⟨3, by omega, by omega, ?_, ?_, by omega⟩
        · cases h2 : setOk (st.calls.length + 2) <;> simp [List.replicate]
        · intro i hi
          have : i = 0 ∨ i = 1 := by omega
          rcases this with rfl | rfl
          · simpa using h0
          · exact h1
      · refine ⟨2, by omega, by omega, by simp [List.replicate], ?_, ?_⟩
        · intro i hi
          have : i = 0 := by omega
          subst this; simpa using h0
        · intro _; exact h1
    · refine ⟨1, by omega, by omega, by simp [List.replicate], ?_, ?_⟩
      · intro i hi; omega
      · intro _; simpa using h0
  · intro h
    rw [sendPair_cases]
    have hp : ∀ x : SenderState, x.processed = (st.processed + 1) % 2 ^ 64 →
        x.errors = st.errors →
        x.processed = (st.processed + 1) % 2 ^ 64 ∧
          (st.processed + 1 < 2 ^ 64 → x.processed = st.processed + 1) ∧
          x.errors = st.errors :=
      fun x h1 h2 => ⟨h1, fun hlt => by rw [h1, Nat.mod_eq_of_lt hlt], h2⟩
    cases h0 : setOk st.calls.length
    · cases h1 : setOk (st.calls.length + 1)
      · cases h2 : setOk (st.calls.length + 2)
        · rw [h0, h1, h2] at h; simp at h
        · exact hp _ rfl rfl
      · exact hp _ rfl rfl
    · exact hp _ rfl rfl
  · rintro ⟨h0, h1, h2⟩
    rw [sendPair_cases, h0, h1, h2]
    exact ⟨rfl, fun hlt => by simp only [Bool.false_eq_true, if_false]; exact Nat.mod_eq_of_lt hlt, rfl⟩
  · rfl
  · rfl

/-- C3 on a store whose first two writes fail and whose third succeeds, from zero
counters: three calls, one success, no failure. -/
theorem retry_at_most_three_witness :
    (sendPair thirdTimeLucky ⟨"idfa:abc".toList, [1, 2]⟩
        { processed := 0, errors := 0, calls := [] }).processed = 1 ∧
      (sendPair thirdTimeLucky ⟨"idfa:abc".toList, [1, 2]⟩
        { processed := 0, errors := 0, calls := [] }).errors = 0 :=
  have h := (retry_at_most_three thirdTimeLucky ⟨"idfa:abc".toList, [1, 2]⟩
    { processed := 0, errors := 0, calls := [] }).2.1 (Or.inr (Or.inr rfl))
  ⟨h.2.1 (by decide), h.2.2⟩

/-! ## The store key -/

/-- C6, as stated, fails: the non-empty pairs (`idfa`, `x:y`) and (`idfa:x`,
`y`) are different and give the same key `idfa:x:y`. -/
theorem storeKey_collision :
    storeKey "idfa".toList "x:y".toList = storeKey "idfa:x".toList "y".toList ∧
      "idfa".toList ≠ "idfa:x".toList ∧ "x:y".toList ≠ "y".toList ∧
      "idfa".toList ≠ [] ∧ "x:y".toList ≠ [] ∧ "idfa:x".toList ≠ [] ∧ "y".toList ≠ [] := by
  decide

/-- C6, amended: the store key is category + ":" + device-id, and the derivation
is injective over the pairs whose category contains no colon (as none of the four
categories that have a worker does), whatever the device ids contain: equal keys
come from equal categories and equal device ids. -/
theorem storeKey_injective (c1 d1 c2 d2 : Str) (h1 : ':' ∉ c1) (h2 : ':' ∉ c2)
    (h : storeKey c1 d1 = storeKey c2 d2) :
    (storeKey c1 d1 = c1 ++ ":".toList ++ d1) ∧ c1 = c2 ∧ d1 = d2 := by
  refine ⟨by simp [storeKey], ?_⟩
  induction c1 generalizing c2 with
  | nil =>
    cases c2 with
    | nil => simpa [storeKey] using h
    | cons b c2 =>
      simp only [storeKey, List.nil_append, List.cons_append, List.cons.injEq] at h
      exact absurd (h.1 ▸ List.mem_cons_self _ _) h2
  | cons a c1 ih =>
    cases c2 with
    | nil =>
      simp only [storeKey, List.nil_append, List.cons_append, List.cons.injEq] at h
      exact absurd (h.1 ▸ List.mem_cons_self _ _) h1
    | cons b c2 =>
      simp only [storeKey, List.cons_append, List.cons.injEq] at h
      have := ih c2 (fun hm => h1 (List.mem_cons_of_mem _ hm))
        (fun hm => h2 (List.mem_cons_of_mem _ hm)) h.2
      exact ⟨by rw [h.1, this.1], this.2⟩

/-- The amended C6 at two keys of the category `idfa` whose device ids contain a
colon. -/
theorem storeKey_injective_witness :
    (storeKey "idfa".toList "x:y".toList = "idfa".toList ++ ":".toList ++ "x:y".toList) ∧
      "idfa".toList = "idfa".toList ∧ "x:y".toList = "x:y".toList :=
  storeKey_injective "idfa".toList "x:y".toList "idfa".toList "x:y".toList
    (by decide) (by decide) rfl

/-! ## The worker and the sender -/

/-- A property kept by every enabled move holds along every schedule. -/
theorem run_invariant {F : Type} (cfg : WorkerConfig F) (P : Sys F → Prop)
    (hstep : ∀ a s s', P s → step cfg a s = some s' → P s') :
    ∀ (acts : List (Action F)) (s s' : Sys F), P s → run cfg acts s = some s' → P s' := by
  intro acts
  induction acts with
  | nil =>
    intro s s' hP h
    simp only [run, Option.some.injEq] at h
    exact h ▸ hP
  | cons a acts ih =>
    intro s s' hP h
    simp only [run] at h
    cases hs : step cfg a s with
    | none => rw [hs] at h; cases h
    | some s1 =>
      rw [hs] at h
      exact ih s1 s' (hstep a s s1 hP hs) h

theorem DryInv_init {F : Type} (cfg : WorkerConfig F) (hdry : cfg.dry = true) (stat0 : Stat) :
    DryInv cfg stat0 (Sys.init cfg stat0) := by
  simp [DryInv, Sys.init, hdry]

theorem DryInv_step {F : Type} (cfg : WorkerConfig F) (hdry : cfg.dry = true) (stat0 : Stat)
    (a : Action F) (s s' : Sys F) (hP : DryInv cfg stat0 s) (h : step cfg a s = some s') :
    DryInv cfg stat0 s' := by
  obtain ⟨h1, h2, h3, h4, h5, h6, h7, h8, h9⟩ := hP
  unfold step at h
  by_cases hab : s.aborted = true
  · simp [hab] at h
  rw [if_neg hab] at h
  cases a with
  | push item =>
    simp only at h
    split_ifs at h
    cases h
    refine ⟨h1, h2, h3, h4, h5, h6, ?_, h8, h9⟩
    simp [← h7]
  | closeExit =>
    simp only at h
    split_ifs at h
    cases h
    exact ⟨h1, h2, h3, h4, h5, h6, h7, h8, fun _ => rfl⟩
  | workerExit =>
    simp only at h
    split_ifs at h with hg
    cases h
    exact ⟨h1, h2, h3, h4, h5, h6, h7, (fun _ hh => by cases hh), (fun _ => hg.2)⟩
  | workerRecv =>
    simp only at h
    split at h
    · rename_i item rest hw hch
      cases hm : cfg.marshal (toUserApps item) with
      | none =>
        rw [hm] at h
        cases h
        refine ⟨h1, h2, h3, h4, ?_, ?_, ?_, h8, h9⟩
        · simp [List.filterMap_append, dryLine, hm, h5]
        · intro hh; cases hh
        · simp [← h7, hch]
      | some packed =>
        rw [hm] at h
        simp only [hdry, if_true, Option.some.injEq] at h
        subst h
        refine ⟨h1, h2, h3, h4, ?_, ?_, ?_, h8, h9⟩
        · simp [List.filterMap_append, dryLine, hm, h5]
        · intro hh
          have := h6 (by simpa using hab)
          simp [this]
        · simp [← h7, hch]
    · cases h
  | workerSend =>
    simp only at h
    cases h
  | senderExit =>
    simp only at h
    split_ifs at h with hc
    rw [h3] at hc
    exact absurd hc.1 (by decide)
  | senderRecv =>
    simp only at h
    split at h
    · rename_i hsd hsc
      rw [h3] at hsd; cases hsd
    · cases h

/-- Away from overflow, the retry loop adds exactly one to the sum of the two
counters. -/
theorem sendPair_count (setOk : Nat → Bool) (pair : PackedData) (st : SenderState)
    (h : st.processed + st.errors + 1 < 2 ^ 64) :
    (sendPair setOk pair st).processed + (sendPair setOk pair st).errors =
      st.processed + st.errors + 1 := by
  have hp : (st.processed + 1) % 2 ^ 64 = st.processed + 1 := Nat.mod_eq_of_lt (by omega)
  have he : (st.errors + 1) % 2 ^ 64 = st.errors + 1 := Nat.mod_eq_of_lt (by omega)
  rw [sendPair_cases, hp, he]
  split_ifs <;> simp only <;> omega

theorem LiveInv_init {F : Type} (cfg : WorkerConfig F) (hdry : cfg.dry = false) (stat0 : Stat) :
    LiveInv stat0 (Sys.init cfg stat0) := by
  simp [LiveInv, Sys.init, hdry, Sys.pending]

theorem LiveInv_step {F : Type} (cfg : WorkerConfig F) (hdry : cfg.dry = false) (stat0 : Stat)
    (a : Action F) (s s' : Sys F) (hP : LiveInv stat0 s) (h : step cfg a s = some s') :
    LiveInv stat0 s' := by
  obtain ⟨ha, hb, hc, hd, he, hf⟩ := hP
  unfold step at h
  by_cases hab : s.aborted = true
  · simp [hab] at h
  rw [if_neg hab] at h
  have hab' : s.aborted = false := by simpa using hab
  cases a with
  | push item =>
    simp only at h
    split_ifs at h
    cases h
    refine ⟨ha, hb, hc, hd, he, ?_⟩
    intro _ hlt
    simp only [List.length_append, List.length_singleton] at hlt
    have := hf hab' (by omega)
    simp only [Sys.pending, List.length_append, List.length_singleton] at this ⊢
    omega
  | closeExit =>
    simp only at h
    split_ifs at h
    cases h
    exact ⟨ha, hb, hc, hd, he, hf⟩
  | workerExit =>
    simp only at h
    split_ifs at h with hg
    cases h
    refine ⟨fun _ => rfl, fun _ => rfl, hc, hd, he, ?_⟩
    intro _ hlt
    have := hf hab' hlt
    simp only [Sys.pending, hg.1] at this ⊢
    exact this
  | workerRecv =>
    simp only at h
    split at h
    · rename_i item rest hw hch
      cases hm : cfg.marshal (toUserApps item) with
      | none =>
        rw [hm] at h
        cases h
        refine ⟨ha, hb, hc, hd, he, ?_⟩
        intro hh; cases hh
      | some packed =>
        rw [hm] at h
        simp only [hdry, Bool.false_eq_true, if_false, Option.some.injEq] at h
        subst h
        refine ⟨?_, hb, hc, hd, he, ?_⟩
        · intro hx
          have := ha hx
          rw [hw] at this; cases this
        · intro _ hlt
          have := hf hab' hlt
          simp only [Sys.pending, hw, hch, List.length_cons] at this ⊢
          omega
    · cases h
  | workerSend =>
    simp only at h
    split at h
    · rename_i pair hw
      split_ifs at h
      cases h
      refine ⟨?_, hb, hc, hd, he, ?_⟩
      · intro hx
        have := ha hx
        rw [hw] at this; cases this
      · intro _ hlt
        have := hf hab' hlt
        simp only [Sys.pending, hw, List.length_append, List.length_singleton] at this ⊢
        omega
    · cases h
  | senderExit =>
    simp only at h
    split_ifs at h with hg
    cases h
    refine ⟨ha, fun _ => hg.2, by simp, fun _ => rfl, fun hx => absurd rfl hx, hf⟩
  | senderRecv =>
    simp only at h
    split at h
    · rename_i pair rest hsd hsc
      cases h
      have hnd : s.sender ≠ .done := by rw [hsd]; decide
      refine ⟨ha, hb, hc, ?_, he, ?_⟩
      · intro hx; exact absurd hx hnd
      · intro _ hlt
        change s.pushed.length < 2 ^ 64 at hlt
        have h1 := hf hab' hlt
        simp only [Sys.pending, hsc, List.length_cons] at h1
        have h2 := sendPair_count cfg.setOk pair s.sst (by omega)
        simp only [Sys.pending]
        omega
    · cases h

/-- A record returned by the parser carries fields 0 and 1 of the trimmed
line. -/
theorem parseAppsInstalled_ok_fields {F : Type} (ParseFloat : Str → Option F) (s : Str)
    (f0 f1 f2 f3 f4 : Str) (rest : List Str) (r : AppsInstalled F)
    (hs : Split '\t' (TrimSpace s) = f0 :: f1 :: f2 :: f3 :: f4 :: rest)
    (hr : parseAppsInstalled ParseFloat s = .ok r) :
    r.DevType = f0 ∧ r.DevId = f1 := by
  unfold parseAppsInstalled at hr
  rw [hs] at hr
  simp only [List.getD_cons_zero, List.getD_cons_succ] at hr
  split_ifs at hr
  split at hr
  · cases hr
  · split at hr
    · cases hr
    · simp only [Except.ok.injEq] at hr
      subst hr
      exact ⟨rfl, rfl⟩

/-- C7, as stated, fails: with one record pushed before the shutdown is
signalled and a store that accepts every write, the worker may take the
`<-exit` case of its `select` while the record is still in its inbound queue;
it returns, the sender returns after it, and the final counters are 0 successes
and 0 failures for 1 routed record. -/
theorem worker_exit_drops_queued_record :
    (run (sampleConfig false (fun _ => true))
        [.push sampleRecord, .closeExit, .workerExit, .senderExit]
        (Sys.init (sampleConfig false (fun _ => true)) ⟨0, 0⟩)).map
      (fun s => (s.worker, s.sender, s.ch, s.stat, s.pushed.length, s.aborted))
      = some (.done, .done, [sampleRecord], ⟨0, 0⟩, 1, false) := by
  rfl

/-- C7, amended: under the step relation of a worker and its sender outside dry
runs, a goroutine may return while records are still queued (its `select` may
take the shutdown case whenever that case is ready); in every reachable state
in which the process is not aborted and fewer than 2^64 records were pushed,
processed + errors + pending records (in the inbound queue, held by the worker,
in the send queue) = number of records pushed; so once the sender has returned
the worker has returned too, and the published counters satisfy successes +
store failures + pending = records pushed: their sum is at most the number of
records pushed, and equals it exactly when nothing was left pending. -/
theorem counters_account_for_pushed {F : Type} (cfg : WorkerConfig F)
    (hdry : cfg.dry = false) (stat0 : Stat) (acts : List (Action F)) (s : Sys F)
    (hrun : run cfg acts (Sys.init cfg stat0) = some s)
    (hab : s.aborted = false) (hlt : s.pushed.length < 2 ^ 64) :
    s.sst.processed + s.sst.errors + s.pending = s.pushed.length ∧
    (s.sender = .done →
      s.worker = .done ∧
      s.stat.Processed + s.stat.Errors + s.pending = s.pushed.length ∧
      s.stat.Processed + s.stat.Errors ≤ s.pushed.length ∧
      (s.stat.Processed + s.stat.Errors = s.pushed.length ↔ s.pending = 0)) := by
  have hinv := run_invariant cfg (LiveInv stat0)
    (fun a s s' => LiveInv_step cfg hdry stat0 a s s') acts _ s
    (LiveInv_init cfg hdry stat0) hrun
  obtain ⟨ha, hb, -, hd, -, hf⟩ := hinv
  have hsum := hf hab hlt
  refine ⟨hsum, fun hdone => ?_⟩
  have hst := hd hdone
  rw [hst]
  simp only
  exact ⟨ha (hb hdone), hsum, by omega, by omega⟩

/-- The amended C7 on the complete sample run: one record pushed, one success,
nothing pending. -/
theorem counters_account_for_pushed_witness :
    sampleFinal.sst.processed + sampleFinal.sst.errors + sampleFinal.pending
        = sampleFinal.pushed.length ∧
    (sampleFinal.sender = .done →
      sampleFinal.worker = .done ∧
      sampleFinal.stat.Processed + sampleFinal.stat.Errors + sampleFinal.pending
        = sampleFinal.pushed.length ∧
      sampleFinal.stat.Processed + sampleFinal.stat.Errors ≤ sampleFinal.pushed.length ∧
      (sampleFinal.stat.Processed + sampleFinal.stat.Errors = sampleFinal.pushed.length ↔
        sampleFinal.pending = 0)) :=
  counters_account_for_pushed (sampleConfig false thirdTimeLucky) rfl ⟨0, 0⟩ sampleSchedule
    sampleFinal rfl rfl (by decide)

/-- C8, as stated, fails: in dry-run mode, with one record delivered to the
inbound queue before the shutdown is signalled, the worker may take the `<-exit`
case of its `select` while the record is still queued; it returns and no log
line was printed for the record. -/
theorem dry_worker_exit_logs_nothing :
    (run (sampleConfig true thirdTimeLucky) [.push sampleRecord, .closeExit, .workerExit]
        (Sys.init (sampleConfig true thirdTimeLucky) ⟨7, 8⟩)).map
      (fun s => (s.worker, s.ch, s.log, s.pushed.length, s.aborted))
      = some (.done, [sampleRecord], [], 1, false) := by
  rfl

/-- C8, amended: in dry-run mode, along every schedule of a worker, no `mc.Set`
call is made, the sender is never started and the category's counters are
exactly those from before the worker started. The worker returns only after the
shutdown signal. Whenever the worker is in its `select` with a record at the
head of its inbound queue that `proto.Marshal` accepts, receiving it removes it
from the queue and appends to the log exactly one line made of the store
address, the key category + ":" + device-id and the serialized payload, and
touches neither the counters nor the store. So the log is, in order, one line
per record taken from the queue (the delivered records are the taken ones
followed by the ones still queued), and unless a Marshal error aborted the
process, log lines + records still queued = records delivered: a record still
queued when the worker takes the shutdown case gets no line. The key of the
record parsed from the line
`"idfa\t1rfw452y52g2gq4g\t55.55\t42.42\t1423,43,567,3,7,23"` is
`"idfa:1rfw452y52g2gq4g"`. -/
theorem dry_run_logs_received_records {F : Type} (cfg : WorkerConfig F)
    (hdry : cfg.dry = true) (stat0 : Stat) (acts : List (Action F)) (s : Sys F)
    (hrun : run cfg acts (Sys.init cfg stat0) = some s) :
    s.sst.calls = [] ∧ s.sender = .absent ∧ s.sst.processed = 0 ∧ s.sst.errors = 0 ∧
    s.stat = stat0 ∧
    (s.worker = .done → s.exit = true) ∧
    (∀ item rest packed, s.aborted = false → s.worker = .select → s.ch = item :: rest →
      cfg.marshal (toUserApps item) = some packed →
      ∃ s', step cfg .workerRecv s = some s' ∧ s'.ch = rest ∧
        s'.log = s.log ++ [⟨cfg.memCacheIP, item.DevType ++ ":".toList ++ item.DevId, packed⟩] ∧
        s'.stat = s.stat ∧ s'.sst = s.sst ∧ s'.worker = .select ∧ s'.aborted = false ∧
        s'.pushed = s.pushed) ∧
    (∃ taken, s.pushed = taken ++ s.ch ∧ s.log = taken.filterMap (dryLine cfg) ∧
      (s.aborted = false → s.log.length = taken.length)) ∧
    (∀ item packed, cfg.marshal (toUserApps item) = some packed →
      dryLine cfg item
        = some ⟨cfg.memCacheIP, item.DevType ++ ":".toList ++ item.DevId, packed⟩) ∧
    (s.aborted = false → s.log.length + s.ch.length = s.pushed.length) ∧
    (∀ (ParseFloat : Str → Option F) (r : AppsInstalled F),
      parseAppsInstalled ParseFloat
          "idfa\t1rfw452y52g2gq4g\t55.55\t42.42\t1423,43,567,3,7,23".toList = .ok r →
        storeKey r.DevType r.DevId = "idfa:1rfw452y52g2gq4g".toList) := by
  have hinv := run_invariant cfg (DryInv cfg stat0)
    (fun a s s' => DryInv_step cfg hdry stat0 a s s') acts _ s
    (DryInv_init cfg hdry stat0) hrun
  obtain ⟨h1, h2, h3, -, h5, h6, h7, -, h9⟩ := hinv
  refine ⟨by rw [h2], h3, by rw [h2], by rw [h2], h1, h9, ?_, ⟨s.received, h7.symm, h5, h6⟩,
    ?_, ?_, ?_⟩
  · intro item rest packed hab hw hch hm
    have hab' : ¬ s.aborted = true := by simp [hab]
    refine ⟨{ s with ch := rest, received := s.received ++ [item],
                     log := s.log ++ [⟨cfg.memCacheIP, storeKey item.DevType item.DevId,
                       packed⟩] }, ?_, rfl, ?_, rfl, rfl, hw, hab, rfl⟩
    · unfold step
      rw [if_neg hab']
      simp only [hw, hch, hm, hdry, if_true]
    · simp [storeKey]
  · intro item packed hm
    simp [dryLine, hm, storeKey]
  · intro hab
    have hlen := h6 hab
    rw [← h7, List.length_append, hlen]
  · intro pf r hr
    have hs : Split '\t' (TrimSpace
        "idfa\t1rfw452y52g2gq4g\t55.55\t42.42\t1423,43,567,3,7,23".toList) =
        ["idfa".toList, "1rfw452y52g2gq4g".toList, "55.55".toList, "42.42".toList,
          "1423,43,567,3,7,23".toList] := by decide
    obtain ⟨hk1, hk2⟩ := parseAppsInstalled_ok_fields pf _ _ _ _ _ _ [] r hs hr
    rw [hk1, hk2]
    rfl

/-- The amended C8 on the sample dry run, started with the counters (7, 8): the
counters are untouched, no store call was made, and the log has one line per
record taken from the queue. -/
theorem dry_run_logs_received_records_witness :
    sampleDryFinal.stat = ⟨7, 8⟩ ∧ sampleDryFinal.sst.calls = [] ∧
      (∃ taken, sampleDryFinal.pushed = taken ++ sampleDryFinal.ch ∧
        sampleDryFinal.log = taken.filterMap (dryLine (sampleConfig true thirdTimeLucky)) ∧
        (sampleDryFinal.aborted = false → sampleDryFinal.log.length = taken.length)) ∧
      (sampleDryFinal.aborted = false →
        sampleDryFinal.log.length + sampleDryFinal.ch.length = sampleDryFinal.pushed.length) :=
  have h := dry_run_logs_received_records (sampleConfig true thirdTimeLucky) rfl ⟨7, 8⟩
    sampleDrySchedule sampleDryFinal rfl
  ⟨h.2.2.2.2.1, h.1, h.2.2.2.2.2.2.2.1, h.2.2.2.2.2.2.2.2.2.1⟩

/-! ## The file loop -/

/-- The scan loop on lines whose accepted records all have a queue: it runs to
the end of the lines, counts the rejected lines (as a `uint64`) and pushes the
accepted records in order. -/
theorem scanLines_spec {F : Type} (ParseFloat : Str → Option F) (dataChannels : List Str)
    (lines : List Str) (parseErr : Nat) (pushes : List (Push F))
    (hroute : ∀ text ∈ lines, ∀ item, parseAppsInstalled ParseFloat text = .ok item →
      item.DevType ∈ dataChannels)
    (hn : parseErr < 2 ^ 64) :
    scanLines ParseFloat dataChannels lines parseErr pushes =
      (pushes ++ (lines.filterMap (acceptedRecord ParseFloat)).map
          (fun item => ⟨item.DevType, item⟩),
        .returned ((parseErr + lines.countP (isRejected ParseFloat)) % 2 ^ 64)) := by
  induction lines generalizing parseErr pushes with
  | nil =>
    simp only [scanLines, List.filterMap_nil, List.map_nil, List.append_nil, List.countP_nil,
      Nat.add_zero, Nat.mod_eq_of_lt hn]
  | cons text rest ih =>
    have hrest : ∀ t ∈ rest, ∀ item, parseAppsInstalled ParseFloat t = .ok item →
        item.DevType ∈ dataChannels := fun t ht => hroute t (List.mem_cons_of_mem _ ht)
    unfold scanLines
    simp only
    by_cases hb : (TrimSpace text).length = 0
    · have hblank : isBlank text = true := by simp [isBlank, hb]
      have h1 : isRejected ParseFloat text = false := by simp [isRejected, hblank]
      have h2 : acceptedRecord ParseFloat text = none := by simp [acceptedRecord, hblank]
      rw [if_pos hb, ih parseErr pushes hrest hn]
      simp [List.countP_cons, List.filterMap_cons, h1, h2]
    · have hblank : isBlank text = false := by simp [isBlank, hb]
      rw [if_neg hb, parseAppsInstalled_eq]
      cases hp : parseAppsInstalled ParseFloat text with
      | error e =>
        have h1 : isRejected ParseFloat text = true := by simp [isRejected, hblank, hp]
        have h2 : acceptedRecord ParseFloat text = none := by
          simp [acceptedRecord, hblank, hp]
        simp only
        rw [ih _ pushes hrest (Nat.mod_lt _ (by norm_num))]
        simp only [List.countP_cons, List.filterMap_cons, h1, h2, if_true]
        congr 2
        omega
      | ok item =>
        have h1 : isRejected ParseFloat text = false := by simp [isRejected, hblank, hp]
        have h2 : acceptedRecord ParseFloat text = some item := by
          simp [acceptedRecord, hblank, hp]
        have hmem := hroute text (List.mem_cons_self _ _) item hp
        simp only [hmem, if_true]
        rw [ih parseErr _ hrest hn]
        simp [List.countP_cons, List.filterMap_cons, h1, h2]

theorem countP_rejected_add_accepted {F : Type} (ParseFloat : Str → Option F)
    (lines : List Str) :
    lines.countP (isRejected ParseFloat) + (lines.filterMap (acceptedRecord ParseFloat)).length
      = lines.countP (fun text => !isBlank text) := by
  induction lines with
  | nil => rfl
  | cons text rest ih =>
    simp only [List.countP_cons, List.filterMap_cons]
    cases hb : isBlank text
    · cases hp : parseAppsInstalled ParseFloat text with
      | error e =>
        simp [isRejected, acceptedRecord, hb, hp]
        omega
      | ok item =>
        simp [isRejected, acceptedRecord, hb, hp]
        omega
    · simp [isRejected, acceptedRecord, hb]
      omega

/-- C10: for every file content in which each line the parser accepts has a
category with a queue (and with fewer than 2^64 lines, so that the `uint64`
counter does not wrap), the scan loop of `loadFile` goes through all the lines
without stopping on a rejection: it returns, the parse-error count is the number
of lines that are non-blank after trimming and rejected by `parseAppsInstalled`,
blank lines count nothing and push nothing, every accepted record is pushed, in
scan order, to the queue named by its category, and parse-error count + number
of records pushed = number of non-blank lines. -/
theorem loadFile_counts_rejections {F : Type} (fs : Str → Except IOError FileData)
    (ParseFloat : Str → Option F) (dataChannels : List Str) (fn : Str) (data : FileData)
    (hfs : fs fn = .ok data)
    (hqueue : ∀ text ∈ data.lines, hasQueue ParseFloat dataChannels text = true)
    (hlen : data.lines.length < 2 ^ 64) :
    ∃ pushes parseErr,
      loadFile fs ParseFloat dataChannels fn = (pushes, .returned (parseErr, data.scanErr)) ∧
      parseErr = data.lines.countP (isRejected ParseFloat) ∧
      pushes = (data.lines.filterMap (acceptedRecord ParseFloat)).map
        (fun item => ⟨item.DevType, item⟩) ∧
      (∀ p ∈ pushes, p.queue = p.item.DevType ∧ p.queue ∈ dataChannels) ∧
      parseErr + pushes.length = data.lines.countP (fun text => !isBlank text) := by
  have hroute : ∀ text ∈ data.lines, ∀ item, parseAppsInstalled ParseFloat text = .ok item →
      item.DevType ∈ dataChannels := by
    intro text ht item hp
    have := hqueue text ht
    simpa [hasQueue, hp] using this
  have hspec := scanLines_spec ParseFloat dataChannels data.lines 0 [] hroute (by norm_num)
  have hcount := countP_rejected_add_accepted ParseFloat data.lines
  have hle : data.lines.countP (isRejected ParseFloat) ≤ data.lines.length :=
    List.countP_le_length _
  have hmod : (0 + data.lines.countP (isRejected ParseFloat)) % 2 ^ 64
      = data.lines.countP (isRejected ParseFloat) := by
    rw [Nat.zero_add]; exact Nat.mod_eq_of_lt (by omega)
  rw [hmod, List.nil_append] at hspec
  refine ⟨_, _, ?_, rfl, rfl, ?_, ?_⟩
  · unfold loadFile
    rw [hfs]
    simp only [hspec]
  · intro p hp
    rw [List.mem_map] at hp
    obtain ⟨item, hitem, rfl⟩ := hp
    refine ⟨rfl, ?_⟩
    rw [List.mem_filterMap] at hitem
    obtain ⟨text, htext, hacc⟩ := hitem
    unfold acceptedRecord at hacc
    split_ifs at hacc
    split at hacc
    · cases hacc
    · rename_i it hp'
      simp only [Option.some.injEq] at hacc
      subst hacc
      exact hroute text htext _ hp'
  · rw [List.length_map]; exact hcount

/-- C10 on the first sample file: four lines, one blank, one rejected, two
records pushed to `idfa` and `gaid`. -/
theorem loadFile_counts_rejections_witness :
    ∃ pushes parseErr,
      loadFile sampleFs sampleParseFloat knownCategories "a.tsv.gz".toList
        = (pushes, .returned (parseErr, none)) ∧
      parseErr = 1 ∧ pushes.map (fun p => p.queue) = ["idfa".toList, "gaid".toList] ∧
      parseErr + pushes.length = 3 := by
  obtain ⟨pushes, parseErr, h1, h2, h3, -, h5⟩ :=
    loadFile_counts_rejections sampleFs sampleParseFloat knownCategories "a.tsv.gz".toList
      { lines := ["idfa\t1rfw452y52g2gq4g\t55.55\t42.42\t1423,43,567,3,7,23".toList,
                  "   ".toList,
                  "idfa\tonly-two-fields".toList,
                  "gaid\t7rfw452y52g2gq4g\t55.55\t42.42\t7423,424".toList],
        scanErr := none }
      (by decide) (by decide) (by decide)
  refine ⟨pushes, parseErr, h1, ?_, ?_, ?_⟩
  · rw [h2]; decide
  · rw [h3]; decide
  · rw [h5]; decide

/-- The loop of `loadFiles` over files that all load and rename without error
only accumulates: it continues on the rest of the list with their pushes and
names added. -/
theorem loadFilesLoop_prefix {F : Type} (fs : Str → Except IOError FileData)
    (dotRename : Str → Option IOError) (ParseFloat : Str → Option F)
    (dataChannels : List Str) (pre tail : List Str) (total : Nat) (pushes : List (Push F))
    (renamed : List Str)
    (hpre : ∀ f ∈ pre, dotRename f = none ∧
      ∃ ps n, loadFile fs ParseFloat dataChannels f = (ps, .returned (n, none))) :
    ∃ total', loadFilesLoop fs dotRename ParseFloat dataChannels (pre ++ tail) total pushes
        renamed =
      loadFilesLoop fs dotRename ParseFloat dataChannels tail total'
        (pushes ++ pre.flatMap (fun f => (loadFile fs ParseFloat dataChannels f).1))
        (renamed ++ pre) := by
  induction pre generalizing total pushes renamed with
  | nil => exact ⟨total, by simp⟩
  | cons f pre ih =>
    obtain ⟨hren, ps, n, hload⟩ := hpre f (List.mem_cons_self _ _)
    obtain ⟨total', h⟩ := ih ((total + n) % 2 ^ 64) (pushes ++ ps) (renamed ++ [f])
      (fun g hg => hpre g (List.mem_cons_of_mem _ hg))
    refine ⟨total', ?_⟩
    rw [List.cons_append, loadFilesLoop, hload]
    simp only [hren]
    rw [h]
    simp [List.flatMap_cons, hload]

/-- C9, as stated, fails: with two matched files that both scan without error
and a rename that fails on the first, `loadFiles` does not go on: the process
is ended by `log.Fatalln`, the second file is never scanned (only the two
records of the first file were pushed) and no count is returned. -/
theorem rename_failure_counterexample :
    (loadFile sampleFs sampleParseFloat knownCategories "a.tsv.gz".toList).2
        = .returned (1, none) ∧
      (loadFile sampleFs sampleParseFloat knownCategories "b.tsv.gz".toList).2
        = .returned (0, none) ∧
      (loadFiles (.ok ["a.tsv.gz".toList, "b.tsv.gz".toList]) sampleFs sampleRenameFails
          sampleParseFloat knownCategories).outcome
        = .fatal "Failed to rename file: permission denied\n".toList ∧
      (loadFiles (.ok ["a.tsv.gz".toList, "b.tsv.gz".toList]) sampleFs sampleRenameFails
          sampleParseFloat knownCategories).pushes.map (fun p => p.queue)
        = ["idfa".toList, "gaid".toList] := by
  decide

/-- C9, amended: for every list of matched files, if the files before some file
load and are renamed without error, and that file is scanned successfully but
renaming it fails, then `loadFiles` logs the failure with `log.Fatalln`, which
ends the process: the files after it are neither scanned nor renamed, only the
records of the files up to it have been pushed, and no parse-error count is
returned. -/
theorem rename_failure_is_fatal {F : Type} (fs : Str → Except IOError FileData)
    (dotRename : Str → Option IOError) (ParseFloat : Str → Option F)
    (dataChannels : List Str) (pre post : List Str) (fn : Str) (ps : List (Push F))
    (n : Nat) (err : IOError)
    (hpre : ∀ f ∈ pre, dotRename f = none ∧
      ∃ ps n, loadFile fs ParseFloat dataChannels f = (ps, .returned (n, none)))
    (hfn : loadFile fs ParseFloat dataChannels fn = (ps, .returned (n, none)))
    (hren : dotRename fn = some err) :
    loadFiles (.ok (pre ++ fn :: post)) fs dotRename ParseFloat dataChannels =
      { pushes := pre.flatMap (fun f => (loadFile fs ParseFloat dataChannels f).1) ++ ps,
        renamed := pre,
        outcome := .fatal ("Failed to rename file: ".toList ++ err ++ "\n".toList) } := by
  obtain ⟨total', h⟩ := loadFilesLoop_prefix fs dotRename ParseFloat dataChannels pre
    (fn :: post) 0 [] [] hpre
  unfold loadFiles
  simp only
  rw [h, loadFilesLoop, hfn]
  simp only [hren, List.nil_append]

/-- The amended C9 on the sample directory when the rename of the second file
fails: the first file is renamed, the records of both files are pushed, and the
process is ended. -/
theorem rename_failure_is_fatal_witness :
    loadFiles (.ok ["a.tsv.gz".toList, "b.tsv.gz".toList]) sampleFs
        (fun fn => if fn = "b.tsv.gz".toList then some "permission denied".toList else none)
        sampleParseFloat knownCategories =
      { pushes := ["a.tsv.gz".toList].flatMap
            (fun f => (loadFile sampleFs sampleParseFloat knownCategories f).1) ++
          [⟨"dvid".toList, ⟨"dvid".toList, "abc".toList, (1, 0), (2, 0), [5]⟩⟩],
        renamed := ["a.tsv.gz".toList],
        outcome := .fatal ("Failed to rename file: ".toList ++ "permission denied".toList ++
          "\n".toList) } :=
  rename_failure_is_fatal sampleFs
    (fun fn => if fn = "b.tsv.gz".toList then some "permission denied".toList else none)
    sampleParseFloat knownCategories ["a.tsv.gz".toList] [] "b.tsv.gz".toList
    [⟨"dvid".toList, ⟨"dvid".toList, "abc".toList, (1, 0), (2, 0), [5]⟩⟩] 0
    "permission denied".toList
    (by
      intro f hf
      rw [List.mem_singleton] at hf
      subst hf
      exact ⟨by decide, _, 1, rfl⟩)
    (by decide) (by decide)

set_option exponentiation.threshold 9000

/-! ## The statistics verdict -/

/-- Dropping `k` low bits of a number that has a bit at position `k` or above
lowers the position of its leading bit by `k`. -/
theorem log2_div_pow (x k : Nat) (h : 2 ^ k ≤ x) : Nat.log2 (x / 2 ^ k) + k = Nat.log2 x := by
  have hpos : 0 < 2 ^ k := Nat.two_pow_pos k
  have hx : x ≠ 0 := by omega
  have hy : x / 2 ^ k ≠ 0 := Nat.pos_iff_ne_zero.1 (Nat.div_pos h hpos)
  have hk : k ≤ Nat.log2 x := (Nat.le_log2 hx).2 h
  have h1 : 2 ^ Nat.log2 x ≤ x := Nat.log2_self_le hx
  have h2 : x < 2 ^ (Nat.log2 x + 1) := Nat.lt_log2_self
  have hlow : Nat.log2 x - k ≤ Nat.log2 (x / 2 ^ k) := by
    rw [Nat.le_log2 hy, Nat.le_div_iff_mul_le hpos, ← Nat.pow_add]
    rwa [Nat.sub_add_cancel hk]
  have hhigh : Nat.log2 (x / 2 ^ k) < Nat.log2 x - k + 1 := by
    rw [Nat.log2_lt hy, Nat.div_lt_iff_lt_mul hpos, ← Nat.pow_add]
    have : Nat.log2 x - k + 1 + k = Nat.log2 x + 1 := by omega
    rwa [this]
  omega

/-- One step of the binary search is right when the rest of the search is. -/
theorem log2Go_step (k : Nat) (ks : List Nat) (x acc : Nat) (hx : x < 2 ^ (2 * k))
    (H : ∀ y a, y < 2 ^ k → log2Go ks y a = a + Nat.log2 y) :
    log2Go (k :: ks) x acc = acc + Nat.log2 x := by
  have hpos : 0 < 2 ^ k := Nat.two_pow_pos k
  unfold log2Go
  rw [Nat.shiftRight_eq_div_pow]
  by_cases h : x / 2 ^ k ≠ 0
  · rw [if_pos h]
    have hle : 2 ^ k ≤ x := by
      by_contra hlt
      exact h (Nat.div_eq_of_lt (by omega))
    have hlt : x / 2 ^ k < 2 ^ k := by
      rw [Nat.div_lt_iff_lt_mul hpos, ← Nat.pow_add]
      have : k + k = 2 * k := by omega
      rwa [this]
    rw [H _ _ hlt]
    have := log2_div_pow x k hle
    omega
  · rw [if_neg h]
    have h0 : x / 2 ^ k = 0 := by simpa using h
    have hlt : x < 2 ^ k := by
      by_contra hge
      have := Nat.div_pos (Nat.le_of_not_lt hge) hpos
      omega
    exact H x acc hlt

/-- The binary search computes `Nat.log2`. -/
theorem floorLog2_eq (x : Nat) : floorLog2 x = Nat.log2 x := by
  unfold floorLog2
  split_ifs with h
  · have hx : x < 2 ^ 8192 := by
      rw [Nat.shiftRight_eq_div_pow] at h
      by_contra hge
      have := Nat.div_pos (Nat.le_of_not_lt hge) (Nat.two_pow_pos 8192)
      rw [h] at this
      exact absurd this (Nat.lt_irrefl 0)
    have base : ∀ y a, y < 2 ^ 1 → log2Go [] y a = a + Nat.log2 y := by
      intro y a hy
      have : y = 0 ∨ y = 1 := by omega
      rcases this with rfl | rfl <;> simp [log2Go, Nat.log2]
    have := log2Go_step 4096 _ x 0 hx
      (fun y a hy => log2Go_step 2048 _ y a hy
      (fun y a hy => log2Go_step 1024 _ y a hy
      (fun y a hy => log2Go_step 512 _ y a hy
      (fun y a hy => log2Go_step 256 _ y a hy
      (fun y a hy => log2Go_step 128 _ y a hy
      (fun y a hy => log2Go_step 64 _ y a hy
      (fun y a hy => log2Go_step 32 _ y a hy
      (fun y a hy => log2Go_step 16 _ y a hy
      (fun y a hy => log2Go_step 8 _ y a hy
      (fun y a hy => log2Go_step 4 _ y a hy
      (fun y a hy => log2Go_step 2 _ y a hy
      (fun y a hy => log2Go_step 1 _ y a hy base))))))))))))
    rw [Nat.zero_add] at this
    exact this
  · rfl

theorem roundNearestEven_ge (n d : Nat) : n / d ≤ roundNearestEven n d := by
  unfold roundNearestEven
  simp only
  split_ifs <;> omega

theorem roundNearestEven_le (n d : Nat) : roundNearestEven n d ≤ n / d + 1 := by
  unfold roundNearestEven
  simp only
  split_ifs <;> omega

/-- Rounding a quotient does not depend on a common factor. -/
theorem roundNearestEven_scale (a b k : Nat) (hk : 0 < k) :
    roundNearestEven (a * k) (b * k) = roundNearestEven a b := by
  unfold roundNearestEven
  simp only
  rw [Nat.mul_div_mul_right a b hk, Nat.mul_mod_mul_right k a b]
  have h1 : (2 * (a % b * k) < b * k) ↔ (2 * (a % b) < b) := by
    rw [← Nat.mul_assoc]
    exact Nat.mul_lt_mul_right hk
  have h2 : (2 * (a % b * k) > b * k) ↔ (2 * (a % b) > b) := by
    rw [← Nat.mul_assoc]
    exact Nat.mul_lt_mul_right hk
  simp only [h1, h2]

/-- The value `roundQuot` computes, with the shifts written as products. -/
theorem roundQuot_eq (n d : Nat) :
    roundQuot n d =
      if roundNearestEven (n * 2 ^ 1075)
          (d * 2 ^ max 1 (Nat.log2 (n * 2 ^ 1075 / d) - 52)) = 2 ^ 53 then
        (if max 1 (Nat.log2 (n * 2 ^ 1075 / d) - 52) + 1 ≥ 2047 then .inf
         else .fin (2 ^ 52) (max 1 (Nat.log2 (n * 2 ^ 1075 / d) - 52) + 1))
      else
        (if max 1 (Nat.log2 (n * 2 ^ 1075 / d) - 52) ≥ 2047 then .inf
         else .fin (roundNearestEven (n * 2 ^ 1075)
            (d * 2 ^ max 1 (Nat.log2 (n * 2 ^ 1075 / d) - 52)))
            (max 1 (Nat.log2 (n * 2 ^ 1075 / d) - 52))) := by
  unfold roundQuot
  simp only [Nat.shiftLeft_eq, floorLog2_eq]
  split_ifs <;> rfl

/-- The constant `0.01` as a `float64`: the bit pattern `0x3F847AE147AE147B`. -/
theorem NormalErrRate_eq : NormalErrRate = .fin 5764607523034235 1016 := by decide

/-- Sample values of the model, with the bit patterns IEEE 754 gives them:
`3.0` is `0x4008000000000000`, `1.0 / 3.0` is `0x3FD5555555555555`, and the
largest `uint64` converts to `2 ^ 64`, `0x43F0000000000000`. -/
theorem float64_samples :
    ofUint64 3 = .fin 0x18000000000000 0x400 ∧
      fdiv (ofUint64 1) (ofUint64 3) = .fin 0x15555555555555 0x3FD ∧
      ofUint64 (2 ^ 64 - 1) = .fin 0x10000000000000 0x43F := by
  decide

/-- The quotient handed to the rounding step is below `2 ^ 53`. -/
theorem scaled_quot_lt (N d : Nat) (hd : 0 < d) :
    N / (d * 2 ^ max 1 (Nat.log2 (N / d) - 52)) < 2 ^ 53 := by
  have hE : Nat.log2 (N / d) + 1 ≤ max 1 (Nat.log2 (N / d) - 52) + 53 := by omega
  have hx : N / d < 2 ^ (Nat.log2 (N / d) + 1) := Nat.lt_log2_self
  have hN : N < 2 ^ (Nat.log2 (N / d) + 1) * d := (Nat.div_lt_iff_lt_mul hd).1 hx
  have hpow : 2 ^ (Nat.log2 (N / d) + 1) ≤ 2 ^ (max 1 (Nat.log2 (N / d) - 52) + 53) :=
    Nat.pow_le_pow_right (by norm_num) hE
  have hD : 0 < d * 2 ^ max 1 (Nat.log2 (N / d) - 52) :=
    Nat.mul_pos hd (Nat.two_pow_pos _)
  rw [Nat.div_lt_iff_lt_mul hD]
  calc N < 2 ^ (Nat.log2 (N / d) + 1) * d := hN
    _ ≤ 2 ^ (max 1 (Nat.log2 (N / d) - 52) + 53) * d := Nat.mul_le_mul_right d hpow
    _ = 2 ^ 53 * (d * 2 ^ max 1 (Nat.log2 (N / d) - 52)) := by
      rw [Nat.pow_add]; ring

/-- The rounding step in terms of a quotient and a remainder. -/
theorem roundNearestEven_of (a d q r : Nat) (hq : a / d = q) (hr : a % d = r) :
    roundNearestEven a d =
      if 2 * r < d then q else if 2 * r > d then q + 1 else if q % 2 = 0 then q else q + 1 := by
  unfold roundNearestEven
  simp only [hq, hr]

/-- Rounding the quotient of `n * 2 ^ 59` by `d`: below the mantissa of
`NormalErrRate` when `n / d` is below `1/100` by the margin of the
hypothesis. -/
theorem round_below (a d : Nat) (hd : 0 < d) (h : 100 * a ≤ d * (2 ^ 59 - 64)) :
    roundNearestEven a d < 5764607523034235 := by
  obtain ⟨q, r, hdm, hr, hq, hrr⟩ : ∃ q r, d * q + r = a ∧ r < d ∧ a / d = q ∧ a % d = r :=
    ⟨_, _, Nat.div_add_mod a d, Nat.mod_lt a hd, rfl, rfl⟩
  rw [roundNearestEven_of a d q r hq hrr]
  clear hq hrr
  have e : (2 : Nat) ^ 59 - 64 = 576460752303423424 := by norm_num
  rw [e] at h
  have hq : q ≤ 5764607523034234 := by
    by_contra hlt
    have h1 : d * 5764607523034235 ≤ d * q := Nat.mul_le_mul_left d (by omega)
    omega
  by_cases heq : q = 5764607523034234
  · subst heq
    have : 2 * r < d := by omega
    rw [if_pos this]
    norm_num
  · split_ifs <;> omega

/-- Rounding the quotient of `n * 2 ^ 59` by `d`: at least the mantissa of
`NormalErrRate` when `n / d` is at least `1/100`. -/
theorem round_above (a d : Nat) (hd : 0 < d) (h : d * 2 ^ 59 ≤ 100 * a) :
    5764607523034235 ≤ roundNearestEven a d := by
  obtain ⟨q, r, hdm, hr, hq, hrr⟩ : ∃ q r, d * q + r = a ∧ r < d ∧ a / d = q ∧ a % d = r :=
    ⟨_, _, Nat.div_add_mod a d, Nat.mod_lt a hd, rfl, rfl⟩
  rw [roundNearestEven_of a d q r hq hrr]
  clear hq hrr
  have e : (2 : Nat) ^ 59 = 576460752303423488 := by norm_num
  rw [e] at h
  have hq : 5764607523034234 ≤ q := by
    by_contra hlt
    have h1 : d * q ≤ d * 5764607523034233 := Nat.mul_le_mul_left d (by omega)
    omega
  by_cases heq : q = 5764607523034234
  · subst heq
    have h1 : ¬ 2 * r < d := by omega
    have h2 : 2 * r > d := by omega
    rw [if_neg h1, if_pos h2]
  · split_ifs <;> omega

theorem two_pow_split (a b c : Nat) (h : a = b + c) : (2 : Nat) ^ a = 2 ^ b * 2 ^ c := by
  subst h
  exact Nat.pow_add 2 b c

/-- A quotient below `1/100` by at least one part in `2 ^ 53` rounds to a
`float64` below `NormalErrRate`. -/
theorem roundQuot_lt_threshold (n d : Nat) (hd : 0 < d)
    (h : 100 * n * 2 ^ 53 ≤ d * (2 ^ 53 - 1)) :
    flt (roundQuot n d) NormalErrRate = true := by
  have e53 : (2 : Nat) ^ 53 = 9007199254740992 := by norm_num
  have e52 : (2 : Nat) ^ 52 = 4503599627370496 := by norm_num
  have e59 : (2 : Nat) ^ 59 = 576460752303423488 := by norm_num
  rw [e53] at h
  have h64 : 64 * n < d := by omega
  have hx : n * 2 ^ 1075 / d < 2 ^ 1069 := by
    rw [Nat.div_lt_iff_lt_mul hd, two_pow_split 1075 1069 6 (by norm_num)]
    have e6 : (2 : Nat) ^ 6 = 64 := by norm_num
    rw [e6]
    have := Nat.mul_lt_mul_of_pos_left h64 (Nat.two_pow_pos 1069)
    generalize 2 ^ 1069 = P at this ⊢
    have e : n * (P * 64) = P * (64 * n) := by ring
    rw [e]
    exact this
  have hL : Nat.log2 (n * 2 ^ 1075 / d) ≤ 1068 := by
    by_cases hx0 : n * 2 ^ 1075 / d = 0
    · rw [hx0, Nat.log2_zero]; omega
    · have := (Nat.log2_lt hx0).2 hx
      omega
  have hq := scaled_quot_lt (n * 2 ^ 1075) d hd
  rw [roundQuot_eq, NormalErrRate_eq]
  generalize Nat.log2 (n * 2 ^ 1075 / d) = L at hL hq ⊢
  have hE : max 1 (L - 52) ≤ 1016 := by omega
  generalize max 1 (L - 52) = E at hE hq ⊢
  have hm := roundNearestEven_le (n * 2 ^ 1075) (d * 2 ^ E)
  rcases Nat.lt_or_ge E 1016 with hlt | hge
  · have hpow : 2 ^ (E + 1) ≤ 2 ^ 1016 := Nat.pow_le_pow_right (by norm_num) (by omega)
    have hs : 2 ^ (E + 1) = 2 ^ E * 2 := Nat.pow_succ 2 E
    rw [hs] at hpow
    have hP : 0 < 2 ^ 1016 := Nat.two_pow_pos 1016
    generalize roundNearestEven (n * 2 ^ 1075) (d * 2 ^ E) = m at hm ⊢
    rw [e53] at hq ⊢
    split_ifs with c1 c2 c3
    · omega
    · simp only [flt, Nat.shiftLeft_eq, decide_eq_true_eq, e52, hs]
      generalize 2 ^ 1016 = P at hpow hP ⊢
      generalize 2 ^ E = Q at hpow ⊢
      omega
    · omega
    · simp only [flt, Nat.shiftLeft_eq, decide_eq_true_eq]
      have h1 : m * 2 ^ E ≤ 9007199254740991 * 2 ^ E := Nat.mul_le_mul_right _ (by omega)
      generalize 2 ^ 1016 = P at hpow hP ⊢
      generalize m * 2 ^ E = X at h1 ⊢
      generalize 2 ^ E = Q at hpow h1 ⊢
      omega
  · have hE16 : E = 1016 := by omega
    subst hE16
    have hN : n * 2 ^ 1075 = n * 2 ^ 59 * 2 ^ 1016 := by
      rw [two_pow_split 1075 59 1016 (by norm_num), Nat.mul_assoc]
    rw [hN, roundNearestEven_scale _ _ _ (Nat.two_pow_pos 1016)]
    have hb := round_below (n * 2 ^ 59) d hd (by rw [e59]; omega)
    generalize roundNearestEven (n * 2 ^ 59) d = m at hb ⊢
    rw [e53]
    have c1 : ¬ m = 9007199254740992 := by omega
    rw [if_neg c1, if_neg (by norm_num)]
    simp only [flt, Nat.shiftLeft_eq, decide_eq_true_eq]
    exact Nat.mul_lt_mul_of_pos_right hb (Nat.two_pow_pos 1016)

/-- The quotient handed to the rounding step is at least `2 ^ 52` (the result
is a normal number) when the leading bit of the scaled quotient is high
enough. -/
theorem scaled_quot_ge (N d : Nat) (hd : 0 < d) (hx : N / d ≠ 0)
    (hL : 53 ≤ Nat.log2 (N / d)) :
    2 ^ 52 ≤ N / (d * 2 ^ max 1 (Nat.log2 (N / d) - 52)) := by
  have hE : max 1 (Nat.log2 (N / d) - 52) = Nat.log2 (N / d) - 52 := by omega
  rw [hE]
  have h1 : 2 ^ Nat.log2 (N / d) ≤ N / d := Nat.log2_self_le hx
  have h2 : 2 ^ Nat.log2 (N / d) * d ≤ N := (Nat.le_div_iff_mul_le hd).1 h1
  have hD : 0 < d * 2 ^ (Nat.log2 (N / d) - 52) := Nat.mul_pos hd (Nat.two_pow_pos _)
  rw [Nat.le_div_iff_mul_le hD]
  have hsplit : 2 ^ Nat.log2 (N / d) = 2 ^ 52 * 2 ^ (Nat.log2 (N / d) - 52) :=
    two_pow_split _ _ _ (by omega)
  rw [hsplit] at h2
  calc 2 ^ 52 * (d * 2 ^ (Nat.log2 (N / d) - 52))
      = 2 ^ 52 * 2 ^ (Nat.log2 (N / d) - 52) * d := by ring
    _ ≤ N := h2

/-- A quotient of at least `1/100` rounds to a `float64` that is not below
`NormalErrRate`. -/
theorem roundQuot_ge_threshold (n d : Nat) (hd : 0 < d) (h : d ≤ 100 * n) :
    flt (roundQuot n d) NormalErrRate = false := by
  have e53 : (2 : Nat) ^ 53 = 9007199254740992 := by norm_num
  have e52 : (2 : Nat) ^ 52 = 4503599627370496 := by norm_num
  have e59 : (2 : Nat) ^ 59 = 576460752303423488 := by norm_num
  have hx : 2 ^ 1068 ≤ n * 2 ^ 1075 / d := by
    rw [Nat.le_div_iff_mul_le hd, two_pow_split 1075 1068 7 (by norm_num)]
    have e7 : (2 : Nat) ^ 7 = 128 := by norm_num
    rw [e7]
    have := Nat.mul_le_mul_left (2 ^ 1068) (show d ≤ 128 * n by omega)
    generalize 2 ^ 1068 = P at this ⊢
    have e : n * (P * 128) = P * (128 * n) := by ring
    rw [e]
    exact this
  have hx0 : n * 2 ^ 1075 / d ≠ 0 := by
    have := Nat.two_pow_pos 1068
    generalize 2 ^ 1068 = P at this hx
    omega
  have hL : 1068 ≤ Nat.log2 (n * 2 ^ 1075 / d) := (Nat.le_log2 hx0).2 hx
  have hq := scaled_quot_ge (n * 2 ^ 1075) d hd hx0 (by omega)
  rw [roundQuot_eq, NormalErrRate_eq]
  generalize Nat.log2 (n * 2 ^ 1075 / d) = L at hL hq ⊢
  have hE : 1016 ≤ max 1 (L - 52) := by omega
  generalize max 1 (L - 52) = E at hE hq ⊢
  have hm := roundNearestEven_ge (n * 2 ^ 1075) (d * 2 ^ E)
  rcases Nat.lt_or_ge 1016 E with hlt | hge
  · have hpow : 2 ^ 1017 ≤ 2 ^ E := Nat.pow_le_pow_right (by norm_num) (by omega)
    have hs : (2 : Nat) ^ 1017 = 2 ^ 1016 * 2 := by
      rw [two_pow_split 1017 1016 1 (by norm_num), Nat.pow_one]
    have hs' : 2 ^ (E + 1) = 2 ^ E * 2 := Nat.pow_succ 2 E
    rw [hs] at hpow
    have hP : 0 < 2 ^ 1016 := Nat.two_pow_pos 1016
    generalize roundNearestEven (n * 2 ^ 1075) (d * 2 ^ E) = m at hm ⊢
    rw [e52] at hq
    rw [e53]
    split_ifs with c1 c2 c3
    · rfl
    · simp only [flt, Nat.shiftLeft_eq, decide_eq_false_iff_not, e52, hs']
      generalize 2 ^ 1016 = P at hpow hP ⊢
      generalize 2 ^ E = Q at hpow ⊢
      omega
    · rfl
    · simp only [flt, Nat.shiftLeft_eq, decide_eq_false_iff_not]
      have h1 : 4503599627370496 * 2 ^ E ≤ m * 2 ^ E := Nat.mul_le_mul_right _ (by omega)
      generalize 2 ^ 1016 = P at hpow hP ⊢
      generalize m * 2 ^ E = X at h1 ⊢
      generalize 2 ^ E = Q at hpow h1 ⊢
      omega
  · have hE16 : E = 1016 := by omega
    subst hE16
    have hN : n * 2 ^ 1075 = n * 2 ^ 59 * 2 ^ 1016 := by
      rw [two_pow_split 1075 59 1016 (by norm_num), Nat.mul_assoc]
    rw [hN, roundNearestEven_scale _ _ _ (Nat.two_pow_pos 1016)]
    have hb := round_above (n * 2 ^ 59) d hd (by rw [e59]; omega)
    generalize roundNearestEven (n * 2 ^ 59) d = m at hb ⊢
    have hs : (2 : Nat) ^ (1016 + 1) = 2 ^ 1016 * 2 := by
      rw [two_pow_split (1016 + 1) 1016 1 rfl, Nat.pow_one]
    have hP : 0 < 2 ^ 1016 := Nat.two_pow_pos 1016
    rw [e53]
    split_ifs with c1 c2 c3
    · rfl
    · simp only [flt, Nat.shiftLeft_eq, decide_eq_false_iff_not, e52, hs]
      generalize 2 ^ 1016 = P at hP ⊢
      omega
    · rfl
    · simp only [flt, Nat.shiftLeft_eq, decide_eq_false_iff_not, Nat.not_lt]
      exact Nat.mul_le_mul_right _ hb

/-- Without overflow the two sums of `printStatistics` are the totals. -/
theorem sumStats_foldl (stats : List Stat) (p e : Nat)
    (hp : p + totalProcessed stats < 2 ^ 64) (he : totalFailures e stats < 2 ^ 64) :
    stats.foldl
      (fun acc stat => ((acc.1 + stat.Processed) % 2 ^ 64, (acc.2 + stat.Errors) % 2 ^ 64))
      (p, e) = (p + totalProcessed stats, totalFailures e stats) := by
  induction stats generalizing p e with
  | nil => simp [totalProcessed, totalFailures]
  | cons st rest ih =>
    simp only [totalProcessed, totalFailures, List.map_cons, List.sum_cons] at hp he ih ⊢
    have h1 : (p + st.Processed) % 2 ^ 64 = p + st.Processed := Nat.mod_eq_of_lt (by omega)
    have h2 : (e + st.Errors) % 2 ^ 64 = e + st.Errors := Nat.mod_eq_of_lt (by omega)
    rw [List.foldl_cons]
    simp only [h1, h2]
    rw [ih _ _ (by omega) (by omega)]
    simp only [Prod.mk.injEq]
    omega

theorem sumStats_eq (parseErrors : Nat) (stats : List Stat)
    (hp : totalProcessed stats < 2 ^ 64) (he : totalFailures parseErrors stats < 2 ^ 64) :
    sumStats parseErrors stats = (totalProcessed stats, totalFailures parseErrors stats) := by
  unfold sumStats
  rw [sumStats_foldl stats 0 parseErrors (by omega) he, Nat.zero_add]

theorem roundNearestEven_one (a : Nat) : roundNearestEven a 1 = a := by
  unfold roundNearestEven
  simp only [Nat.div_one, Nat.mod_one]
  rw [if_pos (by norm_num)]

/-- The conversion of an integer below `2 ^ 53` is exact: the result is the
finite value `m * 2 ^ (E - 1075)` with `m * 2 ^ E = v * 2 ^ 1075`. -/
theorem ofUint64_exact (v : Nat) (hv : v < 2 ^ 53) :
    ∃ m E, ofUint64 v = .fin m E ∧ m * 2 ^ E = v * 2 ^ 1075 := by
  have e53 : (2 : Nat) ^ 53 = 9007199254740992 := by norm_num
  by_cases hv0 : v = 0
  · subst hv0
    exact ⟨0, 1, by decide, by simp⟩
  · have ha : Nat.log2 v ≤ 52 := by
      have := (Nat.log2_lt hv0).2 hv
      omega
    have hlow : 2 ^ Nat.log2 v ≤ v := Nat.log2_self_le hv0
    have hhigh : v < 2 ^ (Nat.log2 v + 1) := Nat.lt_log2_self
    generalize Nat.log2 v = a at ha hlow hhigh
    have hT : 0 < 2 ^ 1075 := Nat.two_pow_pos 1075
    have hN0 : v * 2 ^ 1075 ≠ 0 := Nat.mul_ne_zero hv0 (by omega)
    have hL : Nat.log2 (v * 2 ^ 1075) = a + 1075 := by
      have h1 : a + 1075 ≤ Nat.log2 (v * 2 ^ 1075) := by
        rw [Nat.le_log2 hN0, Nat.pow_add]
        exact Nat.mul_le_mul_right _ hlow
      have h2 : Nat.log2 (v * 2 ^ 1075) < a + 1075 + 1 := by
        rw [Nat.log2_lt hN0, two_pow_split (a + 1075 + 1) (a + 1) 1075 (by omega)]
        exact Nat.mul_lt_mul_of_pos_right hhigh hT
      omega
    have hEq : max 1 (a + 1075 - 52) = a + 1023 := by omega
    have hsplit : (2 : Nat) ^ 1075 = 2 ^ (52 - a) * 2 ^ (a + 1023) :=
      two_pow_split _ _ _ (by omega)
    have hN : v * 2 ^ 1075 = v * 2 ^ (52 - a) * 2 ^ (a + 1023) := by
      rw [hsplit, Nat.mul_assoc]
    have hm : v * 2 ^ (52 - a) < 2 ^ 53 := by
      rw [two_pow_split 53 (a + 1) (52 - a) (by omega)]
      exact Nat.mul_lt_mul_of_pos_right hhigh (Nat.two_pow_pos _)
    refine ⟨v * 2 ^ (52 - a), a + 1023, ?_, hN.symm⟩
    unfold ofUint64
    rw [roundQuot_eq, Nat.div_one, hL, hEq]
    have hr : roundNearestEven (v * 2 ^ 1075) (1 * 2 ^ (a + 1023)) = v * 2 ^ (52 - a) := by
      rw [hN, roundNearestEven_scale _ _ _ (Nat.two_pow_pos _), roundNearestEven_one]
    rw [hr, if_neg (by omega), if_neg (by omega)]

/-- For totals below `2 ^ 53`, the `float64` comparison of `printStatistics`
decides `100 * errors < processed`. -/
theorem errRate_lt_iff (e s : Nat) (hs0 : 0 < s) (hs : s < 2 ^ 53) (he : e < 2 ^ 53) :
    flt (fdiv (ofUint64 e) (ofUint64 s)) NormalErrRate = true ↔ 100 * e < s := by
  obtain ⟨m1, E1, h1, v1⟩ := ofUint64_exact e he
  obtain ⟨m2, E2, h2, v2⟩ := ofUint64_exact s hs
  have hT : 0 < 2 ^ 1075 := Nat.two_pow_pos 1075
  have hm2 : m2 ≠ 0 := by
    intro h0
    rw [h0, Nat.zero_mul] at v2
    have := Nat.mul_pos hs0 hT
    omega
  have hd : 0 < s * 2 ^ 1075 := Nat.mul_pos hs0 hT
  have e53 : (2 : Nat) ^ 53 = 9007199254740992 := by norm_num
  rw [h1, h2]
  simp only [fdiv, if_neg hm2, Nat.shiftLeft_eq, v1, v2]
  by_cases hlt : 100 * e < s
  · simp only [hlt, iff_true]
    apply roundQuot_lt_threshold _ _ hd
    rw [e53] at hs ⊢
    have h0 : 100 * e * 9007199254740992 ≤ s * (9007199254740992 - 1) := by omega
    have h3 := Nat.mul_le_mul_right (2 ^ 1075) h0
    generalize 2 ^ 1075 = T at h3 ⊢
    calc 100 * (e * T) * 9007199254740992 = 100 * e * 9007199254740992 * T := by ring
      _ ≤ s * (9007199254740992 - 1) * T := h3
      _ = s * T * (9007199254740992 - 1) := by ring
  · simp only [hlt, iff_false, Bool.not_eq_true]
    apply roundQuot_ge_threshold _ _ hd
    have h3 := Nat.mul_le_mul_right (2 ^ 1075) (Nat.le_of_not_lt hlt)
    generalize 2 ^ 1075 = T at h3 ⊢
    calc s * T ≤ 100 * e * T := h3
      _ = 100 * (e * T) := by ring

/-- The rational comparison of the claim, in integers. -/
theorem rate_lt_iff (e s : Nat) (hs0 : 0 < s) :
    ((e : ℚ) / (s : ℚ) < 1 / 100) ↔ 100 * e < s := by
  have hsq : (0 : ℚ) < (s : ℚ) := by exact_mod_cast hs0
  rw [div_lt_iff₀ hsq]
  constructor
  · intro h
    have h1 : ((100 * e : Nat) : ℚ) < (s : ℚ) := by push_cast; linarith
    exact_mod_cast h1
  · intro h
    have h1 : ((100 * e : Nat) : ℚ) < (s : ℚ) := by exact_mod_cast h
    push_cast at h1
    linarith

/-- C4, as stated, fails: with 10^18 + 1 successes and 10^16 failures (sums far
from overflowing 64 bits) the quotient failures / successes is strictly below
1/100, so the claim promises "accepted"; but `float64(10^18 + 1)` is `1e18`, the
`float64` quotient is exactly the `float64` constant `0.01`, the comparison
`errRate < NormalErrRate` is false and `printStatistics` reports "failed". -/
theorem verdict_counterexample :
    totalProcessed [⟨10 ^ 18 + 1, 10 ^ 16⟩] = 10 ^ 18 + 1 ∧
      totalFailures 0 [⟨10 ^ 18 + 1, 10 ^ 16⟩] = 10 ^ 16 ∧
      10 ^ 18 + 1 < 2 ^ 64 ∧
      ((10 ^ 16 : ℚ) / (10 ^ 18 + 1 : ℚ) < 1 / 100) ∧
      ofUint64 (10 ^ 18 + 1) = ofUint64 (10 ^ 18) ∧
      fdiv (ofUint64 (10 ^ 16)) (ofUint64 (10 ^ 18 + 1)) = NormalErrRate ∧
      printStatistics 0 [⟨10 ^ 18 + 1, 10 ^ 16⟩] = .failed := by
  refine ⟨by decide, by decide, by decide, by norm_num, by decide, by decide, by decide⟩

/-- C4, amended: for every parse-error count and every list of per-category
counters whose two totals are below 2^53 (so that their conversion to `float64`
is exact), `printStatistics` computes successes = sum of the Processed fields
and failures = parse-error count + sum of the Errors fields; if successes = 0 it
reports no verdict; otherwise it reports accepted exactly when failures /
successes < 1/100 (strictly) and failed (fatal, non-zero exit) otherwise. In
particular 990 successes with 9 store failures and 1 parse error is reported
failed, and 999 successes with 9 failures is reported accepted. -/
theorem printStatistics_verdict (parseErrors : Nat) (stats : List Stat)
    (hS : totalProcessed stats < 2 ^ 53) (hE : totalFailures parseErrors stats < 2 ^ 53) :
    sumStats parseErrors stats = (totalProcessed stats, totalFailures parseErrors stats) ∧
    (totalProcessed stats = 0 → printStatistics parseErrors stats = .noVerdict) ∧
    (totalProcessed stats ≠ 0 →
      (printStatistics parseErrors stats = .accepted ↔
        (totalFailures parseErrors stats : ℚ) / (totalProcessed stats : ℚ) < 1 / 100) ∧
      (printStatistics parseErrors stats = .failed ↔
        ¬ ((totalFailures parseErrors stats : ℚ) / (totalProcessed stats : ℚ) < 1 / 100))) ∧
    printStatistics 1 [⟨990, 9⟩] = .failed ∧
    printStatistics 0 [⟨999, 9⟩] = .accepted := by
  have e53 : (2 : Nat) ^ 53 = 9007199254740992 := by norm_num
  have hsum := sumStats_eq parseErrors stats (by omega) (by omega)
  refine ⟨hsum, ?_, ?_, by decide, by decide⟩
  · intro h0
    unfold printStatistics
    simp only [hsum, h0, if_true]
  · intro hne
    have hpos : 0 < totalProcessed stats := Nat.pos_of_ne_zero hne
    have hiff := errRate_lt_iff (totalFailures parseErrors stats) (totalProcessed stats)
      hpos hS hE
    rw [rate_lt_iff _ _ hpos]
    unfold printStatistics
    simp only [hsum, if_neg hne]
    by_cases hlt : 100 * totalFailures parseErrors stats < totalProcessed stats
    · have := hiff.2 hlt
      simp [this, hlt]
    · have : flt (fdiv (ofUint64 (totalFailures parseErrors stats))
          (ofUint64 (totalProcessed stats))) NormalErrRate = false := by
        rw [← Bool.not_eq_true]
        exact fun h => hlt (hiff.1 h)
      simp [this, hlt]

/-- The amended C4 at 990 successes, 9 store failures and 1 parse error. -/
theorem printStatistics_verdict_witness :
    printStatistics 1 [⟨990, 9⟩] = .failed ↔
      ¬ ((totalFailures 1 [⟨990, 9⟩] : ℚ) / (totalProcessed [⟨990, 9⟩] : ℚ) < 1 / 100) :=
  ((printStatistics_verdict 1 [⟨990, 9⟩] (by decide) (by decide)).2.2.1 (by decide)).2

end MemcLoad
